import Mathlib

/-!
Verification of the BG-Counter smart-trap pipeline (bg_json_parser.py,
bg_download_data.py, bg_common.py).

Shallow embedding conventions:
* Timestamps are seconds since an epoch (`Nat`).  The string
  `'0000-00-00 00:00:00'` parses to `None` in `bg_common.make_datetime`,
  so capture timestamps are `Option Nat` (`none` = null sentinel) and
  `make_datetime` is the identity on this representation.
  `datetime.min` (the initial `prev_end_timestamp`) is represented by `0`.
  `datetime.date()` is `dateOf` (whole days since the epoch).
* Latitude/longitude are rationals (`float(...)` is the identity).
* The floating-point haversine distance (`calculate_distance`), the
  randomized coordinate displacement (`obfuscate_coordinates`) and the
  calendar-year extraction (`date.year`) are abstracted as an oracle
  record `Env`; theorems quantify over all oracles, so nothing proved
  here depends on float or calendar details.
* Fallible code returns `Except String`; the error strings mirror the
  Python exceptions raised at the corresponding program points.
-/

namespace BG

/-- Oracle for the numeric/calendar operations the Python code delegates
to floating point (`calculate_distance`), the process-wide random source
(`obfuscate_coordinates`) and the `datetime` library (`date.year`). -/
structure Env where
  dist : ℚ → ℚ → ℚ → ℚ → ℚ
  displace : ℚ → ℚ → ℚ → ℚ → ℚ × ℚ
  yearOf : Nat → Nat

/-- `datetime.date()`: whole days since the epoch. -/
def dateOf (t : Nat) : Nat := t / 86400

/-- Python `round(x, 6)` (float banker's rounding abstracted to rational
rounding to 6 decimal places; no claim depends on the tie-break). -/
def round6 (q : ℚ) : ℚ := ((q * 1000000 + 1 / 2).floor : ℚ) / 1000000

/-- Python `str.zfill`: left-pad with `'0'` to the requested length. -/
def zfill (s : String) (n : Nat) : String :=
  if n ≤ s.length then s else String.mk (List.replicate (n - s.length) '0') ++ s

/-- One raw capture as delivered by the API (the fields that
`bg_download_data.py` and `bg_json_parser.py` read). -/
structure Capture where
  id : String
  trap_id : String
  timestamp_start : Option Nat
  timestamp_end : Option Nat
  co2_status : Bool
  counter_status : Bool
  medium : Int
  trap_latitude : ℚ
  trap_longitude : ℚ
deriving DecidableEq, Repr, Inhabited

/-- The per-day retained record built at bg_json_parser.py:195-203
(note: `timestamp_end` is not retained). -/
structure DayCapture where
  trap_id : String
  timestamp_start : Option Nat
  co2_status : Bool
  counter_status : Bool
  medium : Int
  trap_latitude : ℚ
  trap_longitude : ℚ
deriving DecidableEq, Repr

/-- bg_json_parser.py:195-203: the dict appended to `day_captures`. -/
def mkDayCapture (c : Capture) : DayCapture :=
  { trap_id := c.trap_id
    timestamp_start := c.timestamp_start
    co2_status := c.co2_status
    counter_status := c.counter_status
    medium := c.medium
    trap_latitude := c.trap_latitude
    trap_longitude := c.trap_longitude }

/-- One entry of the `locations` metadata list.  `offset_latitude` /
`offset_longitude` are `Option` because Python locations created during
discovery lack those keys until promotion.  `captures` and `new` are the
per-window transient keys added at bg_json_parser.py:279-281. -/
structure Location where
  true_latitude : ℚ
  true_longitude : ℚ
  offset_latitude : Option ℚ
  offset_longitude : Option ℚ
  captures : List DayCapture
  new : Bool
deriving DecidableEq, Repr

/-- The "no-fix" fallback latitude 51.4778 = 257389/5000, written in
lowest terms so kernel evaluation needs no rational normalization. -/
def sentLat : ℚ := ⟨257389, 5000, by decide, by decide⟩

/-- The "no-fix" fallback longitude 0.0014 = 7/5000 in lowest terms. -/
def sentLon : ℚ := ⟨7, 5000, by decide, by decide⟩

/-- bg_json_parser.py:295: the invalid-GPS sentinel test. -/
def isSentinel (c : DayCapture) : Bool :=
  c.trap_latitude == 0 || c.trap_longitude == 0 ||
    (c.trap_latitude == sentLat && c.trap_longitude == sentLon)

/-- bg_json_parser.py:279-281: reset the transient keys on the
pre-existing locations. -/
def initLocs (locs : List Location) : List Location :=
  locs.map fun l => { l with captures := [], new := false }

/-- A fresh tentative location (bg_json_parser.py:313-318). -/
def newLoc (c : DayCapture) : Location :=
  { true_latitude := c.trap_latitude
    true_longitude := c.trap_longitude
    offset_latitude := none
    offset_longitude := none
    captures := []
    new := true }

/-- bg_json_parser.py:286-318, the backward discovery loop: sentinel
captures are deleted; each surviving capture (processed from the last
list element to the first, exactly as the `range(len-1, -1, -1)` loop
does) either finds some location within 111 m or appends a new tentative
location.  Returns the surviving captures (in original order) and the
grown location list. -/
def pass1 (env : Env) : List DayCapture → List Location → List DayCapture × List Location
  | [], locs => ([], locs)
  | c :: rest, locs =>
    let (rest', locs') := pass1 env rest locs
    if isSentinel c then (rest', locs')
    else if locs'.any fun l =>
        env.dist c.trap_latitude c.trap_longitude l.true_latitude l.true_longitude < 111 then
      (c :: rest', locs')
    else (c :: rest', locs' ++ [newLoc c])

/-- The inner minimum-scan of bg_json_parser.py:329-335: `best` is the
(index, distance) of the closest location so far, `i` the index of the
head of the remaining list; the strict `<` keeps the first minimum. -/
def closestAux (env : Env) (lat lon : ℚ) : Nat × ℚ → Nat → List Location → Nat × ℚ
  | best, _, [] => best
  | best, i, l :: rest =>
    let d := env.dist lat lon l.true_latitude l.true_longitude
    closestAux env lat lon (if d < best.2 then (i, d) else best) (i + 1) rest

/-- Index of the closest location (bg_json_parser.py:326-335); `none`
when the list is empty (in Python `closest_location` stays `None`). -/
def closestIdx (env : Env) (lat lon : ℚ) : List Location → Option Nat
  | [] => none
  | l :: rest =>
    (closestAux env lat lon (0, env.dist lat lon l.true_latitude l.true_longitude) 1 rest).1

/-- Apply `f` to the element at index `j` (identity out of range). -/
def updateAt (j : Nat) (f : Location → Location) : List Location → List Location
  | [] => []
  | l :: rest =>
    match j with
    | 0 => f l :: rest
    | j' + 1 => l :: updateAt j' f rest

/-- bg_json_parser.py:322-339, the reassignment loop: each capture is
appended to the member list of its closest location.  If the location
list is empty Python dereferences `None` (`closest_location['captures']`),
modelled by the error case. -/
def pass2Go (env : Env) : List DayCapture → List Location → Except String (List Location)
  | [], locs => .ok locs
  | c :: rest, locs =>
    match closestIdx env c.trap_latitude c.trap_longitude locs with
    | none => .error "TypeError: 'NoneType' object is not subscriptable"
    | some j =>
      pass2Go env rest (updateAt j (fun l => { l with captures := l.captures ++ [c] }) locs)

/-- bg_json_parser.py:354-371: promotion of a qualifying location.  A new
location gets the rounded mean of its members' coordinates and offset
coordinates (displaced when `obf`); an established one is unchanged. -/
def promote (env : Env) (obf : Bool) (l : Location) : Location :=
  if l.new then
    let lats := l.captures.map (·.trap_latitude)
    let lons := l.captures.map (·.trap_longitude)
    let tlat := round6 (lats.sum / (lats.length : ℚ))
    let tlon := round6 (lons.sum / (lons.length : ℚ))
    if obf then
      let p := env.displace tlat tlon 200 400
      { l with true_latitude := tlat, true_longitude := tlon
               offset_latitude := some (round6 p.1), offset_longitude := some (round6 p.2) }
    else
      { l with true_latitude := tlat, true_longitude := tlon
               offset_latitude := some tlat, offset_longitude := some tlon }
  else l

/-- bg_json_parser.py:382-383: remove the transient keys. -/
def clearLoc (l : Location) : Location := { l with captures := [], new := false }

/-- bg_json_parser.py:344-385, the backward threshold loop.  The Python
loop runs from the last index down to 0, so in this forward recursion the
tail is processed first and a qualifying head overwrites the tail's
candidate.  A qualifying location is promoted and copied out (the copy
keeps its member list); a below-threshold new location is deleted; all
kept locations have their transient keys cleared. -/
def finalizeLocs (env : Env) (obf : Bool) : List Location → Option Location × List Location
  | [] => (none, [])
  | l :: rest =>
    let (cr, restOut) := finalizeLocs env obf rest
    if 92 ≤ l.captures.length then
      let l' := promote env obf l
      (some l', clearLoc l' :: restOut)
    else if l.new then (cr, restOut)
    else (cr, clearLoc l :: restOut)

/-- bg_json_parser.py:261-385 `make_collection`: reset transient keys,
discovery pass, reassignment pass, threshold pass.  Returns the at most
one collection candidate and the updated location list. -/
def make_collection (env : Env) (obf : Bool) (captures : List DayCapture)
    (locations : List Location) : Except String (Option Location × List Location) := do
  let p := pass1 env captures (initLocs locations)
  let locs2 ← pass2Go env p.1 p.2
  .ok (finalizeLocs env obf locs2)

/-- Lookup in the ordinals dict (year → ordinal). -/
def findOrd : List (Nat × Nat) → Nat → Option Nat
  | [], _ => none
  | p :: rest, y => if p.1 = y then some p.2 else findOrd rest y

/-- Python dict assignment on the ordinals dict: update the first
occurrence of the key, or append the binding. -/
def setOrd : List (Nat × Nat) → Nat → Nat → List (Nat × Nat)
  | [], y, v => [(y, v)]
  | p :: rest, y, v => if p.1 = y then (y, v) :: rest else p :: setOrd rest y v

/-- bg_json_parser.py:437-441: create the year's ordinal if missing,
then increment and store it; returns the ordinal used and the updated
dict. -/
def bumpOrdinal (ords : List (Nat × Nat)) (y : Nat) : Nat × List (Nat × Nat) :=
  let ords1 := if (findOrd ords y).isSome then ords else setOrd ords y 0
  let o := (findOrd ords1 y).getD 0 + 1
  (o, setOrd ords1 y o)

/-- bg_json_parser.py:447-456: zero-pad the ordinal to 8 digits, widened
so that at least one leading zero remains. -/
def ordinalString (o : Nat) : String :=
  let lenOrdinal := (toString o).length
  let digits := if 8 < lenOrdinal + 1 then lenOrdinal + 1 else 8
  zfill (toString o) digits

/-- One output row (bg_json_parser.py:462-466).  Coordinates are kept as
rationals; the constant literal columns are carried verbatim. -/
structure Row where
  collection_id : String
  sample_id : String
  collection_start_date : Nat
  collection_end_date : Nat
  trap_id : String
  gps_latitude : Option ℚ
  gps_longitude : Option ℚ
  location_description : String
  trap_type : String
  attractant : String
  trap_number : Nat
  trap_duration : Nat
  species : String
  id_method : String
  dev_stage : String
  sex : String
  sample_count : Int
deriving DecidableEq, Repr

/-- bg_json_parser.py:388-475 `write_collection`.  Sums the member
counts, ORs the CO2/counter flags, and — only when the counter was on at
some point — consumes the next (provider, year) ordinal and emits a row.
Returns (emitted, row, updated ordinals).  The error cases mirror the
Python crashes on an empty member list (`captures[0]`) and on a null
start timestamp (`date.year` on `None`). -/
def write_collection (env : Env) (coll : Location) (pfx : String)
    (ords : List (Nat × Nat)) : Except String (Bool × Option Row × List (Nat × Nat)) :=
  match coll.captures with
  | [] => .error "IndexError: list index out of range"
  | c0 :: _ =>
    let acc := coll.captures.foldl
      (fun (a : Int × Bool × Bool) c =>
        (a.1 + c.medium, a.2.1 || c.co2_status, a.2.2 || c.counter_status))
      (0, false, false)
    let mosCount := acc.1
    let usedCo2 := acc.2.1
    let counterOn := acc.2.2
    let date := c0.timestamp_start.map dateOf
    if counterOn then
      match date with
      | none => .error "AttributeError: 'NoneType' object has no attribute 'year'"
      | some d =>
        let attractant := if usedCo2 then "carbon dioxide" else ""
        let year := env.yearOf d
        let bump := bumpOrdinal ords year
        let ostr := ordinalString bump.1
        let row : Row :=
          { collection_id := pfx ++ "_" ++ toString year ++ "_collection_" ++ ostr
            sample_id := pfx ++ "_" ++ toString year ++ "_sample_" ++ ostr
            collection_start_date := d
            collection_end_date := d
            trap_id := c0.trap_id
            gps_latitude := coll.offset_latitude
            gps_longitude := coll.offset_longitude
            location_description := ""
            trap_type := "BGCT"
            attractant := attractant
            trap_number := 1
            trap_duration := 1
            species := "Culicidae"
            id_method := "by size"
            dev_stage := "adult"
            sex := "unknown sex"
            sample_count := mosCount }
        .ok (true, some row, bump.2)
    else .ok (false, none, ords)

/-- The mutable state threaded through `process_captures`: the two
counters, the current day buffer, `prev_end_timestamp` (initially
`datetime.min`, i.e. `0`), the location metadata, the ordinals dict and
the rows written to the output CSV. -/
structure PCState where
  total : Nat
  good : Nat
  dayCaptures : List DayCapture
  prevEnd : Nat
  locations : List Location
  ordinals : List (Nat × Nat)
  rows : List Row
deriving DecidableEq, Repr

/-- bg_json_parser.py:211-212. -/
def orderErrMsg (c : Capture) : String :=
  "Capture has earlier ending timestamp than preceding capture. Capture ID: " ++ c.id

/-- bg_json_parser.py:224-225. -/
def tooManyErrMsg (c : Capture) (currDate : Nat) : String :=
  "More than 96 captures in a day at trap_id: " ++ c.trap_id ++
    " - date: " ++ toString currDate

/-- bg_json_parser.py:216-217: the day window closes when this is the
last capture or the next capture's start date differs from the current
date (`make_date` of a null timestamp is `None`, which compares unequal
to any date). -/
def windowCloses (next : Option Capture) (currDate : Nat) : Bool :=
  match next with
  | none => true
  | some c2 => decide (c2.timestamp_start.map dateOf ≠ some currDate)

/-- bg_json_parser.py:218-256: close the day window — fail above 96
retained captures, otherwise run `make_collection`, write the candidate
if any, count its captures as good when written, and reset the buffer. -/
def closeWindow (env : Env) (pfx : String) (obf : Bool) (c : Capture) (currDate : Nat)
    (s : PCState) : Except String PCState :=
  if 96 < s.dayCaptures.length then .error (tooManyErrMsg c currDate)
  else do
    let mc ← make_collection env obf s.dayCaptures s.locations
    match mc.1 with
    | none => .ok { s with locations := mc.2, dayCaptures := [] }
    | some coll => do
      let wc ← write_collection env coll pfx s.ordinals
      if wc.1 then
        .ok { s with locations := mc.2, ordinals := wc.2.2
                     rows := s.rows ++ wc.2.1.toList
                     good := s.good + coll.captures.length
                     dayCaptures := [] }
      else
        .ok { s with locations := mc.2, ordinals := wc.2.2, dayCaptures := [] }

/-- Close the window only when the boundary condition holds. -/
def closeIfNeeded (env : Env) (pfx : String) (obf : Bool) (next : Option Capture)
    (c : Capture) (currDate : Nat) (s : PCState) : Except String PCState :=
  if windowCloses next currDate then closeWindow env pfx obf c currDate s else .ok s

/-- bg_json_parser.py:183-186: count a capture toward `total_captures`
when it has invalid dates or is not a duplicate of the previous end. -/
def bumpTotal (currEnd : Option Nat) (s : PCState) : PCState :=
  if !currEnd.isSome || currEnd ≠ some s.prevEnd
    then { s with total := s.total + 1 } else s

/-- One iteration of the bg_json_parser.py:172-256 loop.  In source
order: parse the end then the start timestamp, take `.date()` of the
start (an `AttributeError` when the start is the null sentinel), count
toward `total_captures` unless a valid duplicate, then — for valid
dates — retain, or fail on a backward end timestamp, and close the day
window at a boundary. -/
def processStep (env : Env) (pfx : String) (obf : Bool) (next : Option Capture)
    (c : Capture) (s : PCState) : Except String PCState :=
  let currEnd := c.timestamp_end
  match c.timestamp_start with
  | none => .error "AttributeError: 'NoneType' object has no attribute 'date'"
  | some st =>
    let currDate := dateOf st
    let s1 := bumpTotal currEnd s
    match currEnd with
    | none => .ok s1
    | some e =>
      if s.prevEnd < e ∧ 720 ≤ (e : Int) - (st : Int) then
        closeIfNeeded env pfx obf next c currDate
          { s1 with dayCaptures := s1.dayCaptures ++ [mkDayCapture c], prevEnd := e }
      else if e < s.prevEnd then .error (orderErrMsg c)
      else closeIfNeeded env pfx obf next c currDate s1

/-- The loop of bg_json_parser.py:172-256 over the capture list; the
head of the remaining list plays the role of `captures[i + 1]`. -/
def processCapturesGo (env : Env) (pfx : String) (obf : Bool) :
    PCState → List Capture → Except String PCState
  | s, [] => .ok s
  | s, c :: rest => do
    let s' ← processStep env pfx obf rest.head? c s
    processCapturesGo env pfx obf s' rest

/-- Initial state (bg_json_parser.py:157-168). -/
def initState (locs : List Location) (ords : List (Nat × Nat)) : PCState :=
  { total := 0, good := 0, dayCaptures := [], prevEnd := 0
    locations := locs, ordinals := ords, rows := [] }

/-- bg_json_parser.py:148-258 `process_captures` (single-output-file
path): returns `(total_captures, good_captures)` together with the final
state (updated locations, ordinals and emitted rows). -/
def process_captures (env : Env) (pfx : String) (obf : Bool) (captures : List Capture)
    (locs : List Location) (ords : List (Nat × Nat)) :
    Except String (Nat × Nat × PCState) := do
  let s ← processCapturesGo env pfx obf (initState locs ords) captures
  .ok (s.total, s.good, s)

/-- The start timestamp of a capture, defaulting to `0` (only applied
under validity hypotheses). -/
def startVal (c : Capture) : Nat := c.timestamp_start.getD 0

/-- The end timestamp of a capture, defaulting to `0`. -/
def endVal (c : Capture) : Nat := c.timestamp_end.getD 0

/-- bg_download_data.py:209-210 / 289-290. -/
def capErrMsg (n : Nat) : String :=
  "More than 1000 (limit) captures for a trap: " ++ toString n ++ "."

/-- bg_download_data.py:319-320 (the message names `capture['id']`, the
first capture of the appended suffix). -/
def emptyEndErrMsg (c : Capture) : String :=
  "Last ending timestamp is empty at capture ID: " ++ c.id

/-- bg_download_data.py:302-303: the stitch condition — both
timestamps parse and the start is at or after the trap's last recorded
timestamp. -/
def stitchQual (lastEnd : Nat) (c : Capture) : Bool :=
  match c.timestamp_start, c.timestamp_end with
  | some s, some _ => lastEnd ≤ s
  | _, _ => false

/-- bg_download_data.py:293-326, the scan over a continuation response:
the suffix from the first capture satisfying the stitch condition
(`none` when no capture qualifies, in which case nothing is appended). -/
def stitchFrom (lastEnd : Nat) : List Capture → Option (List Capture)
  | [] => none
  | c :: rest =>
    if stitchQual lastEnd c then some (c :: rest) else stitchFrom lastEnd rest

/-- bg_download_data.py:237-350, the continuation loop specialized to a
single incomplete trap (`api t` is the list of that trap's captures in
the response to a request from time `t` to the original end time).  The
loop has no structural bound, so it is modelled with fuel; the theorems
supply enough fuel for termination under the stream hypotheses. -/
def dlLoop (api : Nat → List Capture) : Nat → List Capture → Nat → Except String (List Capture)
  | 0, _, _ => .error "fuel exhausted"
  | fuel + 1, acc, lastEnd =>
    let resp := api lastEnd
    if 1000 < resp.length then .error (capErrMsg resp.length)
    else
      match stitchFrom lastEnd resp with
      | none =>
        if resp.length < 1000 then .ok acc else dlLoop api fuel acc lastEnd
      | some news =>
        match news.getLast? with
        | none => .error "unreachable: empty stitched suffix"
        | some lc =>
          match lc.timestamp_end with
          | none =>
            .error (emptyEndErrMsg (news.headI))
          | some e2 =>
            if resp.length < 1000 then .ok (acc ++ news)
            else dlLoop api fuel (acc ++ news) e2

/-- bg_download_data.py:168-218 and 237-350, `download_data` specialized
to one entity: the initial fetch on the full range; exactly 1000
captures mark the trap incomplete (keyed by the parsed last end
timestamp, a `ValueError` if that string is the null sentinel, since
line 192 calls `strptime` directly); more than 1000 is fatal; fewer
means the data is already complete. -/
def downloadSingle (api : Nat → List Capture) (startTime : Nat) (fuel : Nat) :
    Except String (List Capture) :=
  let resp := api startTime
  if resp.length = 1000 then
    match resp.getLast? with
    | none => .error "unreachable: empty response of length 1000"
    | some lc =>
      match lc.timestamp_end with
      | none => .error "ValueError: time data does not match format"
      | some e => dlLoop api fuel resp e
  else if 1000 < resp.length then .error (capErrMsg resp.length)
  else .ok resp

/-- Modelled from the spec: the remote reading-source API (not part of
src/).  A request from `t` to the original end time returns the portion
of the hypothetical uncapped sequence `S` still relevant at `t` (every
capture whose window end is at or after `t`), silently truncated to the
1000-reading cap. -/
def apiModel (S : List Capture) (t : Nat) : List Capture :=
  (S.dropWhile fun c => endVal c < t).take 1000

/-- Well-formedness of an entity's uncapped capture sequence: all
timestamps parse, every window has positive duration, and consecutive
windows do not overlap (each start is at or after the previous end). -/
def chainOk : List Capture → Bool
  | [] => true
  | [_] => true
  | c1 :: c2 :: rest => (endVal c1 ≤ startVal c2) && chainOk (c2 :: rest)

/-- All captures valid and strictly ordered as described in `chainOk`. -/
def streamOk (S : List Capture) : Bool :=
  S.all (fun c =>
    c.timestamp_start.isSome && c.timestamp_end.isSome &&
      decide (startVal c < endVal c)) &&
  chainOk S

/-- The coordinate of a location (the only data `calculate_distance`
reads from it). -/
def coordsOf (l : Location) : ℚ × ℚ := (l.true_latitude, l.true_longitude)

/-- Both timestamps parse and the window lasts at least 12 minutes
(720 s), the retention threshold of bg_json_parser.py:194. -/
def durOK (c : Capture) : Bool :=
  match c.timestamp_start, c.timestamp_end with
  | some st, some e => st + 720 ≤ e
  | _, _ => false

/-- Adjacent entries are non-decreasing. -/
def monoN : List Nat → Bool
  | [] => true
  | [_] => true
  | a :: b :: rest => (a ≤ b) && monoN (b :: rest)

/-- End timestamps are delivered in non-decreasing order. -/
def endsMonoCap (cs : List Capture) : Bool := monoN (cs.map endVal)

/-- The hypotheses of the amended C3: valid timestamps, durations of at
least 12 minutes, non-decreasing end timestamps. -/
def wellFormedStream (cs : List Capture) : Bool := cs.all durOK && endsMonoCap cs

/-- Number of value changes in a list read left to right, starting from
`prev` — on a sorted list of end timestamps, the number of distinct
values not yet seen. -/
def countDist (prev : Nat) : List Nat → Nat
  | [] => 0
  | e :: rest => (if e = prev then 0 else 1) + countDist e rest

/-- Number of distinct (parseable) end timestamps in a raw stream. -/
def distinctEnds (cs : List Capture) : Nat :=
  ((cs.filterMap (·.timestamp_end)).dedup).length

/-- A concrete oracle for witnesses: a three-valued distance (0 at equal
points, 50 within taxicab numerator distance 2, else 1000 — so 111 m
separates "same cluster" from "new cluster"), identity displacement,
year = day / 365.  It avoids rational arithmetic so that witnesses
evaluate inside the kernel. -/
def testEnv : Env :=
  { dist := fun la lo la2 lo2 =>
      if la == la2 && lo == lo2 then 0
      else if (la.num - la2.num).natAbs + (lo.num - lo2.num).natAbs ≤ 2 then 50
      else 1000
    displace := fun la lo _ _ => (la, lo)
    yearOf := fun d => d / 365 }

/-- A capture retained 15 minutes (end − start = 900 s ≥ 720 s). -/
def cexShort1 : Capture :=
  { id := "c1", trap_id := "T1", timestamp_start := some 0, timestamp_end := some 900
    co2_status := false, counter_status := true, medium := 3
    trap_latitude := 0, trap_longitude := 0 }

/-- A 300-second capture (below the 12-minute noise floor) whose end
timestamp repeats in `cexShort3`. -/
def cexShort2 : Capture :=
  { cexShort1 with id := "c2", timestamp_start := some 1500, timestamp_end := some 1800 }

/-- A normal capture sharing `cexShort2`'s end timestamp. -/
def cexShort3 : Capture :=
  { cexShort1 with id := "c3", timestamp_start := some 1000, timestamp_end := some 1800 }

/-- Stream with a duplicated end timestamp whose first occurrence is a
short-duration capture. -/
def cexStream : List Capture := [cexShort1, cexShort2, cexShort3]

/-- A capture whose start timestamp is the null sentinel. -/
def nullStartCap : Capture :=
  { cexShort1 with id := "c0", timestamp_start := none, timestamp_end := some 900 }

/-- A capture whose end timestamp is the null sentinel. -/
def nullEndCap : Capture :=
  { cexShort1 with id := "c5", timestamp_start := some 0, timestamp_end := none }

/-- Second capture of the well-formed two-capture stream. -/
def wfCap2 : Capture :=
  { cexShort1 with id := "w2", timestamp_start := some 1000, timestamp_end := some 1800 }

/-- A well-formed stream: valid timestamps, durations ≥ 12 min,
non-decreasing end timestamps. -/
def wfStream : List Capture := [cexShort1, wfCap2]

/-- The final state of processing `wfStream` from empty metadata. -/
def wfState : PCState :=
  { total := 2, good := 0, dayCaptures := [], prevEnd := 1800
    locations := [], ordinals := [], rows := [] }

/-- A day capture at the given coordinates (counter and CO2 on). -/
def dcAt (lat lon : ℚ) : DayCapture :=
  { trap_id := "T1", timestamp_start := some 0, co2_status := true, counter_status := true
    medium := 20, trap_latitude := lat, trap_longitude := lon }

/-- Expected post-reassignment registry for the one-capture window. -/
def w2locs2 : List Location :=
  [{ true_latitude := 10, true_longitude := 10, offset_latitude := none
     offset_longitude := none, captures := [dcAt 10 10], new := true }]

/-- A 92-capture window led by an invalid-GPS sentinel capture. -/
def w5caps : List DayCapture := dcAt 0 5 :: List.replicate 92 (dcAt 10 10)

/-- Established location at (10, 10). -/
def w6locA : Location :=
  { true_latitude := 10, true_longitude := 10, offset_latitude := some 10
    offset_longitude := some 10, captures := [], new := false }

/-- The collection candidate produced from `w5caps` against the
established location `w6locA`. -/
def w5coll : Location := { w6locA with captures := List.replicate 92 (dcAt 10 10) }

/-- The location list left behind by `w5caps`. -/
def w5locsOut : List Location := [w6locA]

/-- Established location at (20, 20). -/
def w6locB : Location :=
  { w6locA with
    true_latitude := 20
    true_longitude := 20
    offset_latitude := some 20
    offset_longitude := some 20 }

/-- Post-reassignment registry: the (19, 19) capture lands on the
nearest location `w6locB`. -/
def w6locs2 : List Location := [w6locA, { w6locB with captures := [dcAt 19 19] }]

/-- A 92-member established collection candidate. -/
def w7coll : Location :=
  { true_latitude := 10, true_longitude := 10, offset_latitude := some 10
    offset_longitude := some 10, captures := List.replicate 92 (dcAt 10 10), new := false }

/-- The row emitted for `w7coll` (ordinal 1 for year 0). -/
def w7row : Row :=
  { collection_id := "tst_0_collection_00000001", sample_id := "tst_0_sample_00000001"
    collection_start_date := 0, collection_end_date := 0, trap_id := "T1"
    gps_latitude := some 10, gps_longitude := some 10, location_description := ""
    trap_type := "BGCT", attractant := "carbon dioxide", trap_number := 1
    trap_duration := 1, species := "Culicidae", id_method := "by size"
    dev_stage := "adult", sex := "unknown sex", sample_count := 1840 }

/-- 91 identical captures — one short of the coverage threshold. -/
def w8caps : List DayCapture := List.replicate 91 (dcAt 10 10)

/-- Post-reassignment registry for `w8caps`: a single tentative cluster
with 91 members. -/
def w8locs2 : List Location :=
  [{ true_latitude := 10, true_longitude := 10, offset_latitude := none
     offset_longitude := none, captures := w8caps, new := true }]

/-- A one-member collection candidate with the CO2 flag off. -/
def w9coll : Location :=
  { w7coll with captures := [{ dcAt 10 10 with co2_status := false }] }

/-- Ordinals dict holding year 0 at ordinal 41. -/
def w9ordsIn : List (Nat × Nat) := [(5, 7), (0, 41)]

/-- The row emitted for `w9coll` against `w9ordsIn` (ordinal 42). -/
def w9row : Row :=
  { w7row with
    collection_id := "tst_0_collection_00000042"
    sample_id := "tst_0_sample_00000042"
    attractant := ""
    sample_count := 20 }

/-- A state whose `prev_end_timestamp` is ahead of `cexShort1`'s end. -/
def w10s1 : PCState := { initState [] [] with prevEnd := 5000 }

/-- A state whose day buffer already holds 96 retained captures. -/
def w10s2 : PCState := { initState [] [] with dayCaptures := List.replicate 96 (dcAt 10 10) }

/-- The `i`-th capture of the synthetic uncapped stream: a 5-second
window every 10 seconds, so windows never overlap. -/
def synthCap (i : Nat) : Capture :=
  { id := toString i, trap_id := "T1", timestamp_start := some (10 * i)
    timestamp_end := some (10 * i + 5), co2_status := false, counter_status := false
    medium := 0, trap_latitude := 10, trap_longitude := 10 }

/-- `n` consecutive synthetic captures starting at index `i`. -/
def synthList : Nat → Nat → List Capture
  | 0, _ => []
  | n + 1, i => synthCap i :: synthList n (i + 1)

/-- A synthetic uncapped sequence of 2398 captures: against the
1000-reading cap it is delivered as 1000, then 1000, then 400 readings
(each continuation overlapping the previous response by one capture). -/
def synthS : List Capture := synthList 2398 0

/-! ### Helper lemmas -/

/-- The aggregation fold of `write_collection` computes the member count
sum and the OR of the CO2 / counter flags. -/
theorem wcFold_eq (cs : List DayCapture) (a : Int × Bool × Bool) :
    cs.foldl
      (fun (a : Int × Bool × Bool) c =>
        (a.1 + c.medium, a.2.1 || c.co2_status, a.2.2 || c.counter_status)) a =
      (a.1 + (cs.map (·.medium)).sum, a.2.1 || cs.any (·.co2_status),
        a.2.2 || cs.any (·.counter_status)) := by
  induction cs generalizing a with
  | nil => simp
  | cons c cs ih =>
    simp only [List.foldl_cons, ih, List.map_cons, List.sum_cons, List.any_cons]
    refine congrArg₂ _ (by ring) (congrArg₂ _ ?_ ?_) <;> cases a.2.1 <;> cases a.2.2 <;>
      cases c.co2_status <;> cases c.counter_status <;> simp

theorem findOrd_setOrd_self (l : List (Nat × Nat)) (y v : Nat) :
    findOrd (setOrd l y v) y = some v := by
  induction l with
  | nil => simp [setOrd, findOrd]
  | cons p rest ih =>
    by_cases h : p.1 = y
    · simp [setOrd, findOrd, h]
    · simp [setOrd, findOrd, h, ih]

theorem findOrd_setOrd_ne (l : List (Nat × Nat)) (y v y' : Nat) (h : y' ≠ y) :
    findOrd (setOrd l y v) y' = findOrd l y' := by
  induction l with
  | nil => simp [setOrd, findOrd, Ne.symm h]
  | cons p rest ih =>
    simp only [setOrd]
    by_cases hp : p.1 = y
    · rw [if_pos hp]
      simp only [findOrd, hp]
      simp [Ne.symm h]
    · rw [if_neg hp]
      simp only [findOrd]
      by_cases hp' : p.1 = y'
      · simp [hp']
      · simp [hp', ih]

theorem bumpOrdinal_fst (l : List (Nat × Nat)) (y : Nat) :
    (bumpOrdinal l y).1 = (findOrd l y).getD 0 + 1 := by
  unfold bumpOrdinal
  cases h : findOrd l y with
  | none => simp [h, findOrd_setOrd_self]
  | some v => simp [h]

theorem bumpOrdinal_self (l : List (Nat × Nat)) (y : Nat) :
    findOrd (bumpOrdinal l y).2 y = some ((findOrd l y).getD 0 + 1) := by
  unfold bumpOrdinal
  cases h : findOrd l y with
  | none => simp [h, findOrd_setOrd_self]
  | some v => simp [h, findOrd_setOrd_self]

theorem bumpOrdinal_ne (l : List (Nat × Nat)) (y y' : Nat) (h : y' ≠ y) :
    findOrd (bumpOrdinal l y).2 y' = findOrd l y' := by
  unfold bumpOrdinal
  cases hf : findOrd l y with
  | none => simp [hf, findOrd_setOrd_ne _ _ _ _ h]
  | some v => simp [hf, findOrd_setOrd_ne _ _ _ _ h]

/-! ### C7 -/

/-- Claim C7: for every collection candidate, `write_collection` emits a
record iff some member capture has the counter flag set; the emitted
row's attractant is "carbon dioxide" exactly when some member has the
CO2 flag set (and empty otherwise), and its count is the sum of the
members' `medium` fields. -/
theorem C7_write_collection_emit (env : Env) (coll : Location) (pfx : String)
    (ords : List (Nat × Nat)) (r : Bool × Option Row × List (Nat × Nat))
    (h : write_collection env coll pfx ords = .ok r) :
    (r.1 = true ↔ coll.captures.any (·.counter_status) = true) ∧
    (r.2.1.isSome ↔ r.1 = true) ∧
    ∀ row, r.2.1 = some row →
      row.attractant = (if coll.captures.any (·.co2_status) then "carbon dioxide" else "") ∧
      row.sample_count = (coll.captures.map (·.medium)).sum := by
  cases hc : coll.captures with
  | nil => rw [write_collection, hc] at h; exact absurd h (by simp)
  | cons c0 cs =>
    rw [write_collection, hc] at h
    simp only [wcFold_eq, List.any_cons, Bool.false_or, zero_add] at h ⊢
    cases hcnt : (c0.counter_status || cs.any fun x => x.counter_status) with
    | false =>
      rw [hcnt] at h
      rw [if_neg (by simp)] at h
      injection h with h'
      subst h'
      exact ⟨by simp [hcnt], by simp, fun row hrow => absurd hrow (by simp)⟩
    | true =>
      rw [hcnt] at h
      rw [if_pos rfl] at h
      cases hst : c0.timestamp_start with
      | none => rw [hst] at h; simp at h
      | some st =>
        rw [hst] at h
        simp only [Option.map_some'] at h
        injection h with h'
        subst h'
        refine ⟨by simp [hcnt], by simp, ?_⟩
        intro row hrow
        injection hrow with hrow'
        rw [← hrow']
        exact ⟨rfl, by simp⟩

/-- Witness for C7: a 92-member, one-coordinate collection with counter
and CO2 on yields exactly one row whose count is the sum of the 92
member counts (92 · 20 = 1840). -/
theorem C7_witness :
    write_collection testEnv w7coll "tst" [] = .ok (true, some w7row, [(0, 1)]) ∧
    w7row.attractant =
      (if w7coll.captures.any (·.co2_status) then "carbon dioxide" else "") ∧
    w7row.sample_count = (w7coll.captures.map (·.medium)).sum ∧
    ((true : Bool) = true ↔ w7coll.captures.any (·.counter_status) = true) := by
  have h : write_collection testEnv w7coll "tst" [] = .ok (true, some w7row, [(0, 1)]) := by
    set_option maxRecDepth 4000 in rfl
  have hmain := C7_write_collection_emit testEnv w7coll "tst" [] (true, some w7row, [(0, 1)]) h
  exact ⟨h, (hmain.2.2 w7row rfl).1, (hmain.2.2 w7row rfl).2, hmain.1⟩

/-! ### C9 -/

/-- Claim C9: `write_collection` reads and increments the (provider,
year) ordinal exactly once per emitted collection — the updated dict
binds the collection's year to its previous value plus one and leaves
every other year unchanged, and the emitted collection id embeds exactly
that incremented ordinal — while a declined write leaves the ordinal
state untouched. -/
theorem C9_ordinal_consumed_once (env : Env) (coll : Location) (pfx : String)
    (ords : List (Nat × Nat)) (r : Bool × Option Row × List (Nat × Nat))
    (h : write_collection env coll pfx ords = .ok r) :
    (r.1 = false → r.2.2 = ords) ∧
    (r.1 = true → ∀ c0, coll.captures.head? = some c0 →
      ∀ st, c0.timestamp_start = some st →
      findOrd r.2.2 (env.yearOf (dateOf st)) =
        some ((findOrd ords (env.yearOf (dateOf st))).getD 0 + 1) ∧
      (∀ y', y' ≠ env.yearOf (dateOf st) → findOrd r.2.2 y' = findOrd ords y') ∧
      ∀ row, r.2.1 = some row →
        row.collection_id = pfx ++ "_" ++ toString (env.yearOf (dateOf st)) ++
          "_collection_" ++
          ordinalString ((findOrd ords (env.yearOf (dateOf st))).getD 0 + 1)) := by
  cases hc : coll.captures with
  | nil => rw [write_collection, hc] at h; exact absurd h (by simp)
  | cons c0 cs =>
    rw [write_collection, hc] at h
    simp only [wcFold_eq, List.any_cons, Bool.false_or, zero_add] at h
    cases hcnt : (c0.counter_status || cs.any fun x => x.counter_status) with
    | false =>
      rw [hcnt] at h
      rw [if_neg (by simp)] at h
      injection h with h'
      subst h'
      exact ⟨fun _ => rfl, fun hb => absurd hb (by simp)⟩
    | true =>
      rw [hcnt] at h
      rw [if_pos rfl] at h
      cases hst : c0.timestamp_start with
      | none => rw [hst] at h; simp at h
      | some st =>
        rw [hst] at h
        simp only [Option.map_some'] at h
        injection h with h'
        subst h'
        refine ⟨fun hb => absurd hb (by simp), ?_⟩
        intro _ c0' hc0' st' hst'
        rw [List.head?_cons] at hc0'
        injection hc0' with hc0''
        subst hc0''
        rw [hst] at hst'
        injection hst' with hst''
        subst hst''
        refine ⟨by simp [bumpOrdinal_self], fun y' hy' => by
          simpa using bumpOrdinal_ne ords _ y' hy', ?_⟩
        intro row hrow
        injection hrow with hrow'
        rw [← hrow']
        simp [bumpOrdinal_fst]

/-- Witness for C9: emitting against a dict holding ordinal 41 for the
collection's year yields ordinal 42, leaves the other year untouched,
and embeds 42 in the collection id; the emitted row is `w9row`. -/
theorem C9_witness :
    write_collection testEnv w9coll "tst" w9ordsIn = .ok (true, some w9row, [(5, 7), (0, 42)]) ∧
    findOrd [(5, 7), (0, 42)] 0 = some ((findOrd w9ordsIn 0).getD 0 + 1) ∧
    w9row.collection_id =
      "tst" ++ "_" ++ toString 0 ++ "_collection_" ++
        ordinalString ((findOrd w9ordsIn 0).getD 0 + 1) := by
  have h : write_collection testEnv w9coll "tst" w9ordsIn =
      .ok (true, some w9row, [(5, 7), (0, 42)]) := rfl
  have hmain := C9_ordinal_consumed_once testEnv w9coll "tst" w9ordsIn
    (true, some w9row, [(5, 7), (0, 42)]) h
  have hinst := hmain.2 rfl ({ dcAt 10 10 with co2_status := false }) rfl 0 rfl
  exact ⟨h, hinst.1, hinst.2.2 w9row rfl⟩

theorem bumpTotal_dayCaptures (oe : Option Nat) (s : PCState) :
    (bumpTotal oe s).dayCaptures = s.dayCaptures := by
  unfold bumpTotal; split <;> rfl

theorem bumpTotal_prevEnd (oe : Option Nat) (s : PCState) :
    (bumpTotal oe s).prevEnd = s.prevEnd := by
  unfold bumpTotal; split <;> rfl

theorem bumpTotal_some_dup (e : Nat) (s : PCState) (h : e = s.prevEnd) :
    bumpTotal (some e) s = s := by
  unfold bumpTotal
  rw [if_neg]
  simp [h]

theorem bumpTotal_some_new (e : Nat) (s : PCState) (h : e ≠ s.prevEnd) :
    bumpTotal (some e) s = { s with total := s.total + 1 } := by
  unfold bumpTotal
  rw [if_pos]
  simp [h]

/-! ### C10 -/

/-- Claim C10: `process_captures`'s loop body raises a `ValueError`
naming the capture whenever a capture with valid timestamps ends
strictly before the previously retained end timestamp, and a
`ValueError` naming the trap and date whenever a closing day window
holds more than 96 retained captures; both abort the entity instead of
being skipped. -/
theorem C10_fatal_errors (env : Env) (pfx : String) (obf : Bool) (next : Option Capture)
    (c : Capture) (s : PCState) (st e : Nat)
    (hst : c.timestamp_start = some st) (hend : c.timestamp_end = some e) :
    (e < s.prevEnd → processStep env pfx obf next c s = .error (orderErrMsg c)) ∧
    (s.prevEnd ≤ e → windowCloses next (dateOf st) = true →
      96 < (if s.prevEnd < e ∧ 720 ≤ (e : Int) - (st : Int)
            then s.dayCaptures.length + 1 else s.dayCaptures.length) →
      processStep env pfx obf next c s = .error (tooManyErrMsg c (dateOf st))) := by
  constructor
  · intro h1
    simp only [processStep, hst, hend]
    rw [if_neg fun hand => (Nat.lt_asymm h1) hand.1]
    rw [if_pos h1]
  · intro hle hwc hlen
    simp only [processStep, hst, hend]
    by_cases hr : s.prevEnd < e ∧ 720 ≤ (e : Int) - (st : Int)
    · rw [if_pos hr] at hlen
      rw [if_pos hr, closeIfNeeded, if_pos hwc, closeWindow]
      rw [if_pos (by
        simp only [bumpTotal_dayCaptures, List.length_append, List.length_cons,
          List.length_nil]
        omega)]
    · rw [if_neg hr] at hlen
      rw [if_neg hr, if_neg (Nat.not_lt.mpr hle), closeIfNeeded, if_pos hwc, closeWindow]
      rw [if_pos (by simp only [bumpTotal_dayCaptures]; omega)]

/-- Witness for C10: a capture ending at 900 against a state with
`prev_end_timestamp` 5000 raises the ordering error, and one that fills
a 96-capture day buffer to 97 at a window boundary raises the cadence
error. -/
theorem C10_witness :
    processStep testEnv "tst" false none cexShort1 w10s1 = .error (orderErrMsg cexShort1) ∧
    processStep testEnv "tst" false none cexShort1 w10s2 =
      .error (tooManyErrMsg cexShort1 (dateOf 0)) := by
  constructor
  · exact (C10_fatal_errors testEnv "tst" false none cexShort1 w10s1 0 900
      rfl rfl).1 (by decide)
  · exact (C10_fatal_errors testEnv "tst" false none cexShort1 w10s2 0 900
      rfl rfl).2 (by decide) (by decide) (by decide)

/-! ### C4 -/

/-- Claim C4 (amended): a capture with a valid start timestamp and a
null-sentinel end timestamp is counted toward `total_captures`, excluded
from the day-window buffer, and processing continues without error —
the step leaves the state unchanged except for the total counter.  (The
claim's null-*start* half is refuted by the counterexample: Python
crashes on `None.date()`.) -/
theorem C4_null_end_skipped (env : Env) (pfx : String) (obf : Bool) (next : Option Capture)
    (c : Capture) (s : PCState) (st : Nat)
    (hst : c.timestamp_start = some st) (hend : c.timestamp_end = none) :
    processStep env pfx obf next c s = .ok { s with total := s.total + 1 } := by
  have hb : bumpTotal none s = { s with total := s.total + 1 } := by
    unfold bumpTotal
    rw [if_pos (by simp)]
  simp only [processStep, hst, hend, hb]

/-- Witness for C4 at a concrete null-end capture and the initial
state. -/
theorem C4_witness :
    processStep testEnv "tst" false none nullEndCap (initState [] []) =
      .ok { initState [] [] with total := 1 } :=
  C4_null_end_skipped testEnv "tst" false none nullEndCap (initState [] []) 0 rfl rfl

/-- Counterexample to C4 as stated: a capture whose start timestamp is
the null sentinel does not get counted and skipped — `process_captures`
dies with the `AttributeError` Python raises when it takes `.date()` of
`None` (bg_json_parser.py:179). -/
theorem C4_cex :
    process_captures testEnv "tst" false [nullStartCap] [] [] =
      .error "AttributeError: 'NoneType' object has no attribute 'date'" := rfl

/-! ### C3 -/

/-- Counterexample to C3 as stated: in `cexStream` the end timestamp
1800 occurs on a short-duration capture and then again on a retained
capture; `prev_end_timestamp` is only advanced on retention, so the
repeat is counted again — `total_captures` is 3 while only 2 distinct
end timestamps exist. -/
theorem C3_cex :
    (process_captures testEnv "tst" false cexStream [] []).map (fun r => r.1) = .ok 3 ∧
    distinctEnds cexStream = 2 := ⟨rfl, rfl⟩

/-! ### Structure of the discovery pass -/

/-- The surviving captures of the discovery pass are exactly the
non-sentinel captures, in order. -/
theorem pass1_fst (env : Env) (cs : List DayCapture) (locs : List Location) :
    (pass1 env cs locs).1 = cs.filter fun c => !(isSentinel c) := by
  induction cs with
  | nil => rfl
  | cons c rest ih =>
    simp only [pass1]
    rcases hp : pass1 env rest locs with ⟨rest', locs'⟩
    rw [hp] at ih
    dsimp only at ih ⊢
    cases hs : isSentinel c with
    | true => simp [hs, ih]
    | false =>
      cases han : locs'.any fun l =>
          env.dist c.trap_latitude c.trap_longitude l.true_latitude l.true_longitude < 111 with
      | true => simp [hs, han, ih]
      | false => simp [hs, han, ih]

/-- The location list produced by the discovery pass is unaffected by
sentinel captures: it equals the one produced from the filtered
captures. -/
theorem pass1_snd_filter (env : Env) (cs : List DayCapture) (locs : List Location) :
    (pass1 env cs locs).2 = (pass1 env (cs.filter fun c => !(isSentinel c)) locs).2 := by
  induction cs with
  | nil => rfl
  | cons c rest ih =>
    cases hs : isSentinel c with
    | true =>
      have hf : (c :: rest).filter (fun c => !(isSentinel c)) =
          rest.filter fun c => !(isSentinel c) := by simp [hs]
      rw [hf]
      simp only [pass1]
      rcases hp : pass1 env rest locs with ⟨rest', locs'⟩
      rw [hp] at ih
      simp [hs, ih]
    | false =>
      have hf : (c :: rest).filter (fun c => !(isSentinel c)) =
          c :: rest.filter fun c => !(isSentinel c) := by simp [hs]
      rw [hf]
      simp only [pass1]
      rcases hp : pass1 env rest locs with ⟨rest', locs'⟩
      rcases hq : pass1 env (rest.filter fun c => !(isSentinel c)) locs with ⟨restq, locsq⟩
      rw [hp, hq] at ih
      dsimp only at ih ⊢
      subst ih
      simp only [hs, Bool.false_eq_true, if_false]
      split <;> rfl

/-- Every location entering the reassignment pass has an empty member
list. -/
theorem pass1_empty (env : Env) (cs : List DayCapture) (locs : List Location)
    (h : ∀ l ∈ locs, l.captures = []) :
    ∀ l ∈ (pass1 env cs locs).2, l.captures = [] := by
  induction cs with
  | nil => exact h
  | cons c rest ih =>
    simp only [pass1]
    rcases hp : pass1 env rest locs with ⟨rest', locs'⟩
    rw [hp] at ih
    cases hs : isSentinel c with
    | true => simpa [hs] using ih
    | false =>
      cases han : locs'.any fun l =>
          env.dist c.trap_latitude c.trap_longitude l.true_latitude l.true_longitude < 111 with
      | true => simpa [hs, han] using ih
      | false =>
        simp only [hs, han, Bool.false_eq_true, if_false, if_true]
        intro l hl
        rcases List.mem_append.mp hl with hl' | hl'
        · exact ih l hl'
        · rcases List.mem_singleton.mp hl' with rfl
          rfl

theorem initLocs_empty (locs : List Location) : ∀ l ∈ initLocs locs, l.captures = [] := by
  intro l hl
  rcases List.mem_map.mp hl with ⟨l', _, rfl⟩
  rfl

theorem flatten_eq_nil_of_empty (locs : List Location) (h : ∀ l ∈ locs, l.captures = []) :
    (locs.map (·.captures)).flatten = [] := by
  induction locs with
  | nil => rfl
  | cons l rest ih =>
    simp only [List.map_cons, List.flatten_cons]
    rw [h l (by simp), ih fun l' hl' => h l' (by simp [hl'])]
    rfl

/-- In a list of naturals summing to at most 96, at most one entry can
be at least 92 (92 · count ≤ sum). -/
theorem sum92 (ns : List Nat) : 92 * ns.countP (fun n => decide (92 ≤ n)) ≤ ns.sum := by
  induction ns with
  | nil => simp
  | cons n rest ih =>
    simp only [List.countP_cons, List.sum_cons]
    by_cases h : 92 ≤ n <;> simp [h] <;> omega

/-! ### Structure of the reassignment pass -/

/-- The minimum-scan invariant: starting from a best candidate drawn
from `pre` that already minorizes `pre`, the scan over `rest` returns an
index into `pre ++ rest` whose distance minorizes all of `pre ++ rest`. -/
theorem closestAux_spec (env : Env) (lat lon : ℚ) :
    ∀ (rest pre : List Location) (best : Nat × ℚ),
      best.1 < pre.length →
      ((pre ++ rest)[best.1]?.map fun l =>
        env.dist lat lon l.true_latitude l.true_longitude) = some best.2 →
      (∀ l ∈ pre, best.2 ≤ env.dist lat lon l.true_latitude l.true_longitude) →
      (closestAux env lat lon best pre.length rest).1 < (pre ++ rest).length ∧
      ((pre ++ rest)[(closestAux env lat lon best pre.length rest).1]?.map fun l =>
        env.dist lat lon l.true_latitude l.true_longitude) =
        some (closestAux env lat lon best pre.length rest).2 ∧
      ∀ l ∈ pre ++ rest,
        (closestAux env lat lon best pre.length rest).2 ≤
          env.dist lat lon l.true_latitude l.true_longitude := by
  intro rest
  induction rest with
  | nil =>
    intro pre best hb1 hb2 hb3
    refine ⟨by simpa using hb1, by simpa using hb2, by simpa using hb3⟩
  | cons l rest ih =>
    intro pre best hb1 hb2 hb3
    simp only [closestAux]
    set d := env.dist lat lon l.true_latitude l.true_longitude with hd
    have happ : pre ++ l :: rest = (pre ++ [l]) ++ rest := by simp
    have hlen : pre.length + 1 = (pre ++ [l]).length := by simp
    by_cases hlt : d < best.2
    · rw [if_pos hlt]
      have h1 : pre.length < (pre ++ [l]).length := by simp
      have h2 : (((pre ++ [l]) ++ rest)[pre.length]?.map fun l' =>
          env.dist lat lon l'.true_latitude l'.true_longitude) = some d := by
        have : ((pre ++ [l]) ++ rest)[pre.length]? = some l := by
          rw [List.append_assoc]
          rw [List.getElem?_append_right (le_refl pre.length)]
          simp
        rw [this, Option.map_some']
      have h3 : ∀ l' ∈ pre ++ [l], d ≤ env.dist lat lon l'.true_latitude l'.true_longitude := by
        intro l' hl'
        rcases List.mem_append.mp hl' with h | h
        · exact le_of_lt (lt_of_lt_of_le hlt (hb3 l' h))
        · rcases List.mem_singleton.mp h with rfl
          exact le_refl _
      have := ih (pre ++ [l]) (pre.length, d) h1 h2 h3
      rw [← hlen, ← happ] at this
      exact this
    · rw [if_neg hlt]
      have h1 : best.1 < (pre ++ [l]).length := by simp; omega
      have h2 : (((pre ++ [l]) ++ rest)[best.1]?.map fun l' =>
          env.dist lat lon l'.true_latitude l'.true_longitude) = some best.2 := by
        rw [← happ]
        exact hb2
      have h3 : ∀ l' ∈ pre ++ [l], best.2 ≤ env.dist lat lon l'.true_latitude l'.true_longitude := by
        intro l' hl'
        rcases List.mem_append.mp hl' with h | h
        · exact hb3 l' h
        · rcases List.mem_singleton.mp h with rfl
          exact le_of_not_lt hlt
      have := ih (pre ++ [l]) best h1 h2 h3
      rw [← hlen, ← happ] at this
      exact this

/-- The index chosen by the closest-location scan points at a location
whose distance to the capture minorizes every location in the list. -/
theorem closestIdx_spec (env : Env) (lat lon : ℚ) (locs : List Location) (j : Nat)
    (h : closestIdx env lat lon locs = some j) :
    j < locs.length ∧ ∃ lj, locs[j]? = some lj ∧
      ∀ l ∈ locs, env.dist lat lon lj.true_latitude lj.true_longitude ≤
        env.dist lat lon l.true_latitude l.true_longitude := by
  cases locs with
  | nil => simp [closestIdx] at h
  | cons l0 rest =>
    simp only [closestIdx] at h
    have hspec := closestAux_spec env lat lon rest [l0]
      (0, env.dist lat lon l0.true_latitude l0.true_longitude)
      (by simp) (by simp) (by intro l' hl'; rcases List.mem_singleton.mp hl' with rfl; exact le_refl _)
    rw [List.singleton_append] at hspec
    rcases hspec with ⟨h1, h2, h3⟩
    simp only [List.length_singleton] at h1 h2 h3
    injection h with hj'
    rw [hj'] at h1 h2
    refine ⟨h1, ?_⟩
    rcases Option.map_eq_some'.mp h2 with ⟨lj, hlj, hdist⟩
    refine ⟨lj, hlj, fun l hl => ?_⟩
    rw [hdist]
    exact h3 l hl

theorem updateAt_mem (f : Location → Location) :
    ∀ (locs : List Location) (j : Nat) (l' : Location), l' ∈ updateAt j f locs →
      l' ∈ locs ∨ ∃ lj, locs[j]? = some lj ∧ l' = f lj := by
  intro locs
  induction locs with
  | nil => intro j l' h; simp [updateAt] at h
  | cons l rest ih =>
    intro j l' h
    cases j with
    | zero =>
      rcases List.mem_cons.mp h with rfl | h'
      · exact Or.inr ⟨l, by simp, rfl⟩
      · exact Or.inl (List.mem_cons_of_mem _ h')
    | succ j' =>
      rcases List.mem_cons.mp h with rfl | h'
      · exact Or.inl (List.mem_cons_self _ _)
      · rcases ih j' l' h' with h'' | ⟨lj, hlj, hfl⟩
        · exact Or.inl (List.mem_cons_of_mem _ h'')
        · exact Or.inr ⟨lj, by simpa using hlj, hfl⟩

theorem updateAt_map_congr (g : Location → ℚ × ℚ) (f : Location → Location)
    (hg : ∀ l, g (f l) = g l) :
    ∀ (locs : List Location) (j : Nat), (updateAt j f locs).map g = locs.map g := by
  intro locs
  induction locs with
  | nil => intro j; simp [updateAt]
  | cons l rest ih =>
    intro j
    cases j with
    | zero => simp [updateAt, hg]
    | succ j' => simp [updateAt, ih]

/-- Appending a capture to the member list at index `j` adds exactly
that capture to the flattened member multiset. -/
theorem updateAt_append_flatten (c : DayCapture) :
    ∀ (locs : List Location) (j : Nat), j < locs.length →
      ((updateAt j (fun l => { l with captures := l.captures ++ [c] }) locs).map
        (·.captures)).flatten.Perm
        (((locs.map (·.captures)).flatten) ++ [c]) := by
  intro locs
  induction locs with
  | nil => intro j hj; simp at hj
  | cons l rest ih =>
    intro j hj
    cases j with
    | zero =>
      simp only [updateAt, List.map_cons, List.flatten_cons]
      rw [List.append_assoc, List.append_assoc]
      exact List.Perm.append_left _ (List.perm_append_comm)
    | succ j' =>
      simp only [updateAt, List.map_cons, List.flatten_cons]
      rw [List.append_assoc]
      exact List.Perm.append_left _ (ih j' (by simpa using hj))

/-- The reassignment pass distributes exactly the incoming captures over
the member lists: the flattened members afterwards are a permutation of
the flattened members before plus the assigned captures. -/
theorem pass2Go_flatten (env : Env) :
    ∀ (cs : List DayCapture) (locs locs2 : List Location),
      pass2Go env cs locs = .ok locs2 →
      ((locs2.map (·.captures)).flatten).Perm
        (((locs.map (·.captures)).flatten) ++ cs) := by
  intro cs
  induction cs with
  | nil =>
    intro locs locs2 h
    injection h with h'
    subst h'
    simp
  | cons c rest ih =>
    intro locs locs2 h
    simp only [pass2Go] at h
    cases hj : closestIdx env c.trap_latitude c.trap_longitude locs with
    | none => rw [hj] at h; exact absurd h (by simp)
    | some j =>
      rw [hj] at h
      have hjlt := (closestIdx_spec env _ _ locs j hj).1
      have hperm := ih _ locs2 h
      refine hperm.trans ?_
      refine ((updateAt_append_flatten c locs j hjlt).append_right rest).trans ?_
      rw [List.append_assoc]
      exact List.Perm.refl _

/-- The reassignment pass does not move any location's coordinates. -/
theorem pass2Go_coords (env : Env) :
    ∀ (cs : List DayCapture) (locs locs2 : List Location),
      pass2Go env cs locs = .ok locs2 → locs2.map coordsOf = locs.map coordsOf := by
  intro cs
  induction cs with
  | nil =>
    intro locs locs2 h
    injection h with h'
    subst h'
    rfl
  | cons c rest ih =>
    intro locs locs2 h
    simp only [pass2Go] at h
    cases hj : closestIdx env c.trap_latitude c.trap_longitude locs with
    | none => rw [hj] at h; exact absurd h (by simp)
    | some j =>
      rw [hj] at h
      rw [ih _ locs2 h]
      exact updateAt_map_congr coordsOf
        (fun l => { l with captures := l.captures ++ [c] }) (fun l => rfl) locs j

/-- The nearest-assignment invariant: if every already-assigned member
sits at a location minimizing its distance over the registry's
coordinates, the same holds after assigning any further captures. -/
theorem pass2Go_min (env : Env) :
    ∀ (cs : List DayCapture) (locs locs2 : List Location),
      (∀ l ∈ locs, ∀ cc ∈ l.captures, ∀ p ∈ locs.map coordsOf,
        env.dist cc.trap_latitude cc.trap_longitude l.true_latitude l.true_longitude ≤
          env.dist cc.trap_latitude cc.trap_longitude p.1 p.2) →
      pass2Go env cs locs = .ok locs2 →
      ∀ l ∈ locs2, ∀ cc ∈ l.captures, ∀ p ∈ locs2.map coordsOf,
        env.dist cc.trap_latitude cc.trap_longitude l.true_latitude l.true_longitude ≤
          env.dist cc.trap_latitude cc.trap_longitude p.1 p.2 := by
  intro cs
  induction cs with
  | nil =>
    intro locs locs2 hinv h
    injection h with h'
    subst h'
    exact hinv
  | cons c rest ih =>
    intro locs locs2 hinv h
    simp only [pass2Go] at h
    cases hj : closestIdx env c.trap_latitude c.trap_longitude locs with
    | none => rw [hj] at h; exact absurd h (by simp)
    | some j =>
      rw [hj] at h
      rcases closestIdx_spec env _ _ locs j hj with ⟨hjlt, lj, hlj, hmin⟩
      refine ih _ locs2 ?_ h
      have hcoords : (updateAt j (fun l => { l with captures := l.captures ++ [c] }) locs).map
          coordsOf = locs.map coordsOf :=
        updateAt_map_congr coordsOf
          (fun l => { l with captures := l.captures ++ [c] }) (fun l => rfl) locs j
      rw [hcoords]
      intro l hl cc hcc p hp
      rcases updateAt_mem _ locs j l hl with hmem | ⟨lj', hlj', rfl⟩
      · exact hinv l hmem cc hcc p hp
      · rw [hlj] at hlj'
        injection hlj' with hlj''
        subst hlj''
        rcases List.mem_append.mp hcc with hcc' | hcc'
        · exact hinv lj (List.getElem?_mem hlj) cc hcc' p hp
        · rcases List.mem_singleton.mp hcc' with rfl
          rcases List.mem_map.mp hp with ⟨l', hl', rfl⟩
          exact hmin l' hl'

/-! ### Structure of the threshold pass -/

theorem promote_captures (env : Env) (obf : Bool) (l : Location) :
    (promote env obf l).captures = l.captures := by
  unfold promote
  split
  · split <;> rfl
  · rfl

/-- When no location reaches 92 members, the threshold pass returns no
candidate, drops the tentative locations, and keeps the established
ones (cleared of their transient keys, coordinates untouched). -/
theorem finalize_below (env : Env) (obf : Bool) :
    ∀ locs : List Location, (∀ l ∈ locs, l.captures.length < 92) →
      finalizeLocs env obf locs =
        (none, locs.filterMap fun l => if l.new then none else some (clearLoc l)) := by
  intro locs
  induction locs with
  | nil => intro _; rfl
  | cons l rest ih =>
    intro h
    have hrest := ih fun l' hl' => h l' (List.mem_cons_of_mem _ hl')
    simp only [finalizeLocs, hrest]
    have hl92 : ¬ 92 ≤ l.captures.length := by
      have := h l (List.mem_cons_self _ _)
      omega
    rw [if_neg hl92]
    by_cases hn : l.new
    · simp [hn, List.filterMap_cons]
    · simp [hn, List.filterMap_cons]

/-- Any collection candidate's member list is the member list of one of
the locations entering the threshold pass (promotion does not touch
member lists). -/
theorem finalize_mem_captures (env : Env) (obf : Bool) :
    ∀ (locs : List Location) (coll : Location), (finalizeLocs env obf locs).1 = some coll →
      ∃ l ∈ locs, coll.captures = l.captures := by
  intro locs
  induction locs with
  | nil => intro coll h; simp [finalizeLocs] at h
  | cons l rest ih =>
    intro coll h
    simp only [finalizeLocs] at h
    rcases hr : finalizeLocs env obf rest with ⟨cr, restOut⟩
    rw [hr] at h
    dsimp only at h
    by_cases h92 : 92 ≤ l.captures.length
    · rw [if_pos h92] at h
      injection h with h'
      exact ⟨l, List.mem_cons_self _ _, by rw [← h', promote_captures]⟩
    · rw [if_neg h92] at h
      have hcr : cr = some coll := by
        by_cases hn : l.new
        · rw [if_pos hn] at h; exact h
        · rw [if_neg hn] at h; exact h
      rcases ih coll (by rw [hr]; exact hcr) with ⟨l', hl', hc⟩
      exact ⟨l', List.mem_cons_of_mem _ hl', hc⟩

/-- `make_collection` is the threshold pass applied to whatever the
reassignment pass produced. -/
theorem make_collection_eq (env : Env) (obf : Bool) (cs : List DayCapture)
    (locs locs2 : List Location)
    (hp : pass2Go env (pass1 env cs (initLocs locs)).1 (pass1 env cs (initLocs locs)).2 =
      .ok locs2) :
    make_collection env obf cs locs = .ok (finalizeLocs env obf locs2) := by
  simp only [make_collection]
  rw [hp]
  rfl

/-- `make_collection` propagates a failing reassignment pass. -/
theorem make_collection_err (env : Env) (obf : Bool) (cs : List DayCapture)
    (locs : List Location) (e : String)
    (hp : pass2Go env (pass1 env cs (initLocs locs)).1 (pass1 env cs (initLocs locs)).2 =
      .error e) :
    make_collection env obf cs locs = .error e := by
  simp only [make_collection]
  rw [hp]
  rfl

/-! ### C2 -/

/-- Claim C2: for a day window of at most 96 captures (the bound
`process_captures` enforces before calling `make_collection`), after
sentinel removal and nearest-cluster reassignment at most one cluster
can hold at least 92 members — so at most one collection candidate can
qualify per window. -/
theorem C2_at_most_one_qualifying (env : Env) (cs : List DayCapture)
    (locs locs2 : List Location) (hlen : cs.length ≤ 96)
    (hp : pass2Go env (pass1 env cs (initLocs locs)).1 (pass1 env cs (initLocs locs)).2 =
      .ok locs2) :
    locs2.countP (fun l => decide (92 ≤ l.captures.length)) ≤ 1 := by
  have hflat := pass2Go_flatten env _ _ _ hp
  have hempty : ((pass1 env cs (initLocs locs)).2.map (·.captures)).flatten = [] :=
    flatten_eq_nil_of_empty _ (pass1_empty env cs _ (initLocs_empty locs))
  have hlenF : (pass1 env cs (initLocs locs)).1.length ≤ cs.length := by
    rw [pass1_fst]
    exact List.length_filter_le _ _
  have hsum : (locs2.map fun l => l.captures.length).sum ≤ 96 := by
    have h1 : ((locs2.map (·.captures)).flatten).length =
        (pass1 env cs (initLocs locs)).1.length := by
      rw [hflat.length_eq, List.length_append, hempty]
      simp
    rw [List.length_flatten, List.map_map] at h1
    have h2 : (locs2.map fun l => l.captures.length).sum =
        (locs2.map (List.length ∘ fun l => l.captures)).sum := rfl
    omega
  have hcount := sum92 (locs2.map fun l => l.captures.length)
  rw [List.countP_map] at hcount
  have heq : locs2.countP (fun l => decide (92 ≤ l.captures.length)) =
      locs2.countP ((fun n => decide (92 ≤ n)) ∘ fun l => l.captures.length) := rfl
  rw [heq]
  omega

/-- Witness for C2 at a one-capture window creating one tentative
cluster. -/
theorem C2_witness :
    ([dcAt 10 10] : List DayCapture).length ≤ 96 ∧
    w2locs2.countP (fun l => decide (92 ≤ l.captures.length)) ≤ 1 :=
  ⟨by decide, C2_at_most_one_qualifying testEnv [dcAt 10 10] [] w2locs2 (by decide) rfl⟩

/-! ### C5 -/

/-- Claim C5: invalid-GPS sentinel captures — latitude 0, longitude 0,
or the (51.4778, 0.0014) fallback — are removed before cluster
discovery: the surviving captures are exactly the non-sentinel ones, the
discovered registry only depends on them, no sentinel capture is ever a
member of any cluster after reassignment, and no sentinel capture
reaches any returned collection candidate (hence neither the ≥92
threshold nor any collection count). -/
theorem C5_sentinel_excluded (env : Env) (obf : Bool) (cs : List DayCapture)
    (locs : List Location) :
    (pass1 env cs (initLocs locs)).1 = (cs.filter fun c => !(isSentinel c)) ∧
    (pass1 env cs (initLocs locs)).2 =
      (pass1 env (cs.filter fun c => !(isSentinel c)) (initLocs locs)).2 ∧
    (∀ locs2, pass2Go env (pass1 env cs (initLocs locs)).1 (pass1 env cs (initLocs locs)).2 =
        .ok locs2 → ∀ l ∈ locs2, ∀ cc ∈ l.captures, isSentinel cc = false) ∧
    (∀ res, make_collection env obf cs locs = .ok res →
      ∀ coll, res.1 = some coll → ∀ cc ∈ coll.captures, isSentinel cc = false) := by
  have h3 : ∀ locs2,
      pass2Go env (pass1 env cs (initLocs locs)).1 (pass1 env cs (initLocs locs)).2 =
        .ok locs2 → ∀ l ∈ locs2, ∀ cc ∈ l.captures, isSentinel cc = false := by
    intro locs2 hp l hl cc hcc
    have hflat := pass2Go_flatten env _ _ _ hp
    have hempty : ((pass1 env cs (initLocs locs)).2.map (·.captures)).flatten = [] :=
      flatten_eq_nil_of_empty _ (pass1_empty env cs _ (initLocs_empty locs))
    have hmem : cc ∈ ((locs2.map (·.captures)).flatten) :=
      List.mem_flatten.mpr ⟨l.captures, List.mem_map.mpr ⟨l, hl, rfl⟩, hcc⟩
    have hmemF : cc ∈ (pass1 env cs (initLocs locs)).1 := by
      have hmm := hflat.mem_iff.mp hmem
      rw [hempty] at hmm
      simpa using hmm
    rw [pass1_fst] at hmemF
    have hfm := List.of_mem_filter hmemF
    simpa using hfm
  refine ⟨pass1_fst env cs _, pass1_snd_filter env cs _, h3, ?_⟩
  intro res hres coll hcoll cc hcc
  cases hp : pass2Go env (pass1 env cs (initLocs locs)).1 (pass1 env cs (initLocs locs)).2 with
  | error e =>
    rw [make_collection_err env obf cs locs e hp] at hres
    exact absurd hres (by simp)
  | ok locs2 =>
    rw [make_collection_eq env obf cs locs locs2 hp] at hres
    injection hres with hres'
    rw [← hres'] at hcoll
    rcases finalize_mem_captures env obf locs2 coll hcoll with ⟨l, hl, hcap⟩
    rw [hcap] at hcc
    exact h3 locs2 hp l hl cc hcc

/-- Witness for C5: a window led by a (0, ·) sentinel capture — the
sentinel survives neither the filter nor any member list of the
returned 92-member candidate. -/
theorem C5_witness :
    make_collection testEnv false w5caps [w6locA] = .ok (some w5coll, w5locsOut) ∧
    (pass1 testEnv w5caps (initLocs [w6locA])).1 =
      (w5caps.filter fun c => !(isSentinel c)) ∧
    ∀ cc ∈ w5coll.captures, isSentinel cc = false := by
  have h : make_collection testEnv false w5caps [w6locA] = .ok (some w5coll, w5locsOut) := by
    set_option maxRecDepth 4000 in rfl
  have hmain := C5_sentinel_excluded testEnv false w5caps [w6locA]
  exact ⟨h, hmain.1, fun cc hcc => hmain.2.2.2 (some w5coll, w5locsOut) h w5coll rfl cc hcc⟩

/-! ### C6 -/

/-- Claim C6: after the reassignment pass, the clusters' member lists
together hold every non-sentinel capture of the window exactly once (as
a multiset), and each member sits at a cluster whose coordinate
minimizes the oracle distance over the whole registry — regardless of
which cluster matched first during discovery. -/
theorem C6_nearest_assignment (env : Env) (cs : List DayCapture) (locs locs2 : List Location)
    (hp : pass2Go env (pass1 env cs (initLocs locs)).1 (pass1 env cs (initLocs locs)).2 =
      .ok locs2) :
    ((locs2.map (·.captures)).flatten).Perm (cs.filter fun c => !(isSentinel c)) ∧
    ∀ l ∈ locs2, ∀ cc ∈ l.captures, ∀ l' ∈ locs2,
      env.dist cc.trap_latitude cc.trap_longitude l.true_latitude l.true_longitude ≤
        env.dist cc.trap_latitude cc.trap_longitude l'.true_latitude l'.true_longitude := by
  constructor
  · have hflat := pass2Go_flatten env _ _ _ hp
    have hempty : ((pass1 env cs (initLocs locs)).2.map (·.captures)).flatten = [] :=
      flatten_eq_nil_of_empty _ (pass1_empty env cs _ (initLocs_empty locs))
    rw [hempty, List.nil_append, pass1_fst] at hflat
    exact hflat
  · have hmin := pass2Go_min env _ _ _ (by
      intro l hl cc hcc p hp'
      have hle := pass1_empty env cs _ (initLocs_empty locs) l hl
      rw [hle] at hcc
      exact absurd hcc (List.not_mem_nil _)) hp
    intro l hl cc hcc l' hl'
    exact hmin l hl cc hcc (coordsOf l') (List.mem_map.mpr ⟨l', hl', rfl⟩)

/-- Witness for C6: the (19, 19) capture is within 111 of the
established `w6locB` only, and ends up assigned to it — the globally
nearest cluster among both registry entries. -/
theorem C6_witness :
    pass2Go testEnv (pass1 testEnv [dcAt 19 19] (initLocs [w6locA, w6locB])).1
      (pass1 testEnv [dcAt 19 19] (initLocs [w6locA, w6locB])).2 = .ok w6locs2 ∧
    ((w6locs2.map (·.captures)).flatten).Perm
      ([dcAt 19 19].filter fun c => !(isSentinel c)) ∧
    ∀ l' ∈ w6locs2,
      testEnv.dist 19 19 20 20 ≤ testEnv.dist 19 19 l'.true_latitude l'.true_longitude := by
  have hp : pass2Go testEnv (pass1 testEnv [dcAt 19 19] (initLocs [w6locA, w6locB])).1
      (pass1 testEnv [dcAt 19 19] (initLocs [w6locA, w6locB])).2 = .ok w6locs2 := rfl
  have hmain := C6_nearest_assignment testEnv [dcAt 19 19] [w6locA, w6locB] w6locs2 hp
  refine ⟨hp, hmain.1, ?_⟩
  intro l' hl'
  exact hmain.2 { w6locB with captures := [dcAt 19 19] } (by simp [w6locs2])
    (dcAt 19 19) (by simp) l' hl'

/-! ### C8 -/

/-- Claim C8: when no cluster reaches 92 members, `make_collection`
returns no candidate, every tentative cluster is dropped from the
location list, and every established cluster is kept with unchanged
coordinates (only its transient keys cleared). -/
theorem C8_below_threshold (env : Env) (obf : Bool) (cs : List DayCapture)
    (locs locs2 : List Location)
    (hp : pass2Go env (pass1 env cs (initLocs locs)).1 (pass1 env cs (initLocs locs)).2 =
      .ok locs2)
    (hbelow : ∀ l ∈ locs2, l.captures.length < 92) :
    make_collection env obf cs locs =
      .ok (none, locs2.filterMap fun l => if l.new then none else some (clearLoc l)) := by
  rw [make_collection_eq env obf cs locs locs2 hp, finalize_below env obf locs2 hbelow]

/-- Witness for C8: a 91-capture single-coordinate window yields no
collection and the tentative cluster is discarded entirely. -/
theorem C8_witness :
    make_collection testEnv false w8caps [] = .ok (none, []) ∧
    ∀ l ∈ w8locs2, l.captures.length < 92 := by
  have hp : pass2Go testEnv (pass1 testEnv w8caps (initLocs [])).1
      (pass1 testEnv w8caps (initLocs [])).2 = .ok w8locs2 := by
    set_option maxRecDepth 4000 in rfl
  have hb : ∀ l ∈ w8locs2, l.captures.length < 92 := by decide
  have hmain := C8_below_threshold testEnv false w8caps [] w8locs2 hp hb
  have hfm : (w8locs2.filterMap fun l => if l.new then none else some (clearLoc l)) = [] := rfl
  rw [hfm] at hmain
  exact ⟨hmain, hb⟩

/-! ### C3 (amended): duplicate suppression on well-formed streams -/

theorem exceptBind_ok {α β : Type} (x : Except String α) (f : α → Except String β) (b : β)
    (h : (x >>= f) = .ok b) : ∃ a, x = .ok a ∧ f a = .ok b := by
  cases x with
  | error e =>
    have h' : (Except.error e : Except String β) = .ok b := h
    exact absurd h' (by simp)
  | ok a => exact ⟨a, rfl, h⟩

/-- Closing a day window touches neither the total counter nor
`prev_end_timestamp`. -/
theorem closeWindow_keeps (env : Env) (pfx : String) (obf : Bool) (c : Capture)
    (d : Nat) (s s' : PCState) (h : closeWindow env pfx obf c d s = .ok s') :
    s'.total = s.total ∧ s'.prevEnd = s.prevEnd := by
  unfold closeWindow at h
  by_cases h96 : 96 < s.dayCaptures.length
  · rw [if_pos h96] at h
    exact absurd h (by simp)
  · rw [if_neg h96] at h
    rcases exceptBind_ok _ _ _ h with ⟨mc, hmc, h2⟩
    cases hc : mc.1 with
    | none =>
      rw [hc] at h2
      injection h2 with h2'
      subst h2'
      exact ⟨rfl, rfl⟩
    | some coll =>
      rw [hc] at h2
      rcases exceptBind_ok _ _ _ h2 with ⟨wc, _, h3⟩
      cases hwb : wc.1 with
      | true =>
        rw [hwb] at h3
        rw [if_pos rfl] at h3
        injection h3 with h3'
        subst h3'
        exact ⟨rfl, rfl⟩
      | false =>
        rw [hwb] at h3
        rw [if_neg (by simp)] at h3
        injection h3 with h3'
        subst h3'
        exact ⟨rfl, rfl⟩

theorem closeIfNeeded_keeps (env : Env) (pfx : String) (obf : Bool) (next : Option Capture)
    (c : Capture) (d : Nat) (s s' : PCState)
    (h : closeIfNeeded env pfx obf next c d s = .ok s') :
    s'.total = s.total ∧ s'.prevEnd = s.prevEnd := by
  unfold closeIfNeeded at h
  by_cases hw : windowCloses next d = true
  · rw [if_pos hw] at h
    exact closeWindow_keeps env pfx obf c d s s' h
  · rw [if_neg hw] at h
    injection h with h'
    subst h'
    exact ⟨rfl, rfl⟩

theorem monoN_le : ∀ (l : List Nat) (a : Nat), monoN (a :: l) = true → ∀ x ∈ l, a ≤ x := by
  intro l
  induction l with
  | nil => intro a _ x hx; simp at hx
  | cons b t ih =>
    intro a h x hx
    have h1 : a ≤ b ∧ monoN (b :: t) = true := by
      simpa [monoN, Bool.and_eq_true, decide_eq_true_eq] using h
    rcases List.mem_cons.mp hx with rfl | hx'
    · exact h1.1
    · exact le_trans h1.1 (ih b h1.2 x hx')

theorem monoN_tail : ∀ (l : List Nat) (a : Nat), monoN (a :: l) = true → monoN l = true := by
  intro l a h
  cases l with
  | nil => rfl
  | cons b t =>
    have h1 : a ≤ b ∧ monoN (b :: t) = true := by
      simpa [monoN, Bool.and_eq_true, decide_eq_true_eq] using h
    exact h1.2

/-- On a sorted list minorized by `prev`, the transition count is the
number of distinct values (one less when `prev` itself occurs). -/
theorem countDist_dedup : ∀ (l : List Nat) (p : Nat), monoN l = true → (∀ x ∈ l, p ≤ x) →
    countDist p l = if p ∈ l then l.dedup.length - 1 else l.dedup.length := by
  intro l
  induction l with
  | nil => intro p _ _; simp [countDist]
  | cons e t ih =>
    intro p hmono hle
    have hmt : monoN t = true := monoN_tail t e hmono
    have hlet : ∀ x ∈ t, e ≤ x := monoN_le t e hmono
    by_cases hep : e = p
    · subst hep
      have hrec := ih e hmt hlet
      have hcd : countDist e (e :: t) = countDist e t := by simp [countDist]
      rw [hcd, if_pos (List.mem_cons_self e t)]
      by_cases het : e ∈ t
      · rw [List.dedup_cons_of_mem het]
        rw [if_pos het] at hrec
        exact hrec
      · rw [List.dedup_cons_of_not_mem het]
        rw [if_neg het] at hrec
        simp [hrec]
    · have hpe : p ≤ e := hle e (List.mem_cons_self e t)
      have hpt : p ∉ e :: t := by
        intro hmem
        rcases List.mem_cons.mp hmem with rfl | hmem'
        · exact hep rfl
        · exact hep (le_antisymm (hlet p hmem') hpe)
      rw [if_neg hpt]
      have hrec := ih e hmt hlet
      simp only [countDist, if_neg (fun hh => hep hh)]
      by_cases het : e ∈ t
      · rw [List.dedup_cons_of_mem het]
        rw [if_pos het] at hrec
        have hpos : 0 < t.dedup.length :=
          List.length_pos.mpr (List.ne_nil_of_mem (List.mem_dedup.mpr het))
        omega
      · rw [List.dedup_cons_of_not_mem het]
        rw [if_neg het] at hrec
        simp only [List.length_cons]
        omega

theorem filterMap_tend (cs : List Capture) (h : cs.all durOK = true) :
    cs.filterMap (·.timestamp_end) = cs.map endVal := by
  induction cs with
  | nil => rfl
  | cons c rest ih =>
    have h1 : durOK c = true ∧ rest.all durOK = true := by
      simpa [List.all_cons, Bool.and_eq_true] using h
    cases hce : c.timestamp_end with
    | none =>
      exfalso
      have := h1.1
      unfold durOK at this
      cases hcs : c.timestamp_start <;> rw [hcs, hce] at this <;> simp at this
    | some e =>
      simp only [List.filterMap_cons, hce, List.map_cons, endVal, Option.getD_some]
      rw [ih h1.2]

/-- The main loop's `total_captures` counts exactly the end-timestamp
transitions when the stream is well formed. -/
theorem go_total (env : Env) (pfx : String) (obf : Bool) :
    ∀ (cs : List Capture) (s r : PCState),
      cs.all durOK = true → monoN (cs.map endVal) = true →
      (∀ c0, cs.head? = some c0 → s.prevEnd ≤ endVal c0) →
      processCapturesGo env pfx obf s cs = .ok r →
      r.total = s.total + countDist s.prevEnd (cs.map endVal) := by
  intro cs
  induction cs with
  | nil =>
    intro s r _ _ _ h
    injection h with h'
    subst h'
    simp [countDist]
  | cons c rest ih =>
    intro s r hdur hmono hprev h
    have hsplit : durOK c = true ∧ rest.all durOK = true := by
      simpa [List.all_cons, Bool.and_eq_true] using hdur
    cases hcs : c.timestamp_start with
    | none =>
      exfalso
      have hd := hsplit.1
      unfold durOK at hd
      rw [hcs] at hd
      simp at hd
    | some st =>
    cases hce : c.timestamp_end with
    | none =>
      exfalso
      have hd := hsplit.1
      unfold durOK at hd
      rw [hcs, hce] at hd
      simp at hd
    | some e =>
      have hd720 : st + 720 ≤ e := by
        have hd := hsplit.1
        unfold durOK at hd
        rw [hcs, hce] at hd
        simpa using hd
      have hpe : s.prevEnd ≤ e := by
        have := hprev c rfl
        simpa [endVal, hce] using this
      simp only [processCapturesGo] at h
      rcases exceptBind_ok _ _ _ h with ⟨s1, hstep, hgo⟩
      simp only [processStep, hcs, hce] at hstep
      have hmono' : monoN (rest.map endVal) = true := by
        have := monoN_tail (rest.map endVal) (endVal c) (by simpa using hmono)
        exact this
      have hheadle : ∀ c0, rest.head? = some c0 → endVal c ≤ endVal c0 := by
        intro c0 hc0
        cases rest with
        | nil => simp at hc0
        | cons c2 t =>
          rw [List.head?_cons] at hc0
          injection hc0 with hc0'
          subst hc0'
          have hcm : endVal c ≤ endVal c2 ∧ monoN (endVal c2 :: t.map endVal) = true := by
            simpa [monoN, Bool.and_eq_true, decide_eq_true_eq] using hmono
          exact hcm.1
      by_cases heq : e = s.prevEnd
      · rw [if_neg (by omega : ¬(s.prevEnd < e ∧ 720 ≤ (e : Int) - (st : Int)))] at hstep
        rw [if_neg (by omega : ¬ e < s.prevEnd)] at hstep
        rw [bumpTotal_some_dup e s heq] at hstep
        have hkeep := closeIfNeeded_keeps env pfx obf rest.head? c (dateOf st) s s1 hstep
        have hrec := ih s1 r hsplit.2 hmono' (by
          intro c0 hc0
          rw [hkeep.2, ← heq]
          have h1 := hheadle c0 hc0
          have h2 : endVal c = e := by simp [endVal, hce]
          omega) hgo
        rw [hrec, hkeep.1, hkeep.2]
        simp only [List.map_cons]
        have h2 : endVal c = e := by simp [endVal, hce]
        rw [h2, ← heq]
        simp [countDist]
      · have hlt : s.prevEnd < e := lt_of_le_of_ne hpe fun hh => heq hh.symm
        rw [if_pos ⟨hlt, by omega⟩] at hstep
        rw [bumpTotal_some_new e s heq] at hstep
        have hkeep := closeIfNeeded_keeps env pfx obf rest.head? c (dateOf st) _ s1 hstep
        have hrec := ih s1 r hsplit.2 hmono' (by
          intro c0 hc0
          rw [hkeep.2]
          have h1 := hheadle c0 hc0
          have h2 : endVal c = e := by simp [endVal, hce]
          simp only []
          omega) hgo
        rw [hrec, hkeep.1, hkeep.2]
        simp only [List.map_cons]
        have h2 : endVal c = e := by simp [endVal, hce]
        rw [h2]
        simp only [countDist, if_neg heq]
        omega

/-- Claim C3 (amended): on streams whose captures all have valid
timestamps, durations of at least 12 minutes, and non-decreasing end
timestamps, `total_captures` counts each distinct end timestamp exactly
once.  (As literally stated the claim is false — see the
counterexample: an end first seen on a short-duration capture is
counted again on its retained repeat, because `prev_end_timestamp`
advances only on retention.) -/
theorem C3_total_counts_distinct (env : Env) (pfx : String) (obf : Bool)
    (cs : List Capture) (locs : List Location) (ords : List (Nat × Nat))
    (r : Nat × Nat × PCState)
    (hwf : wellFormedStream cs = true)
    (h : process_captures env pfx obf cs locs ords = .ok r) :
    r.1 = distinctEnds cs := by
  have hwf2 : cs.all durOK = true ∧ monoN (cs.map endVal) = true := by
    simpa [wellFormedStream, endsMonoCap, Bool.and_eq_true] using hwf
  simp only [process_captures] at h
  rcases exceptBind_ok _ _ _ h with ⟨s, hgo, hret⟩
  injection hret with hret'
  have htot := go_total env pfx obf cs (initState locs ords) s hwf2.1 hwf2.2
    (fun c0 _ => Nat.zero_le _) hgo
  have hnotmem : (0 : Nat) ∉ cs.map endVal := by
    intro hmem
    rcases List.mem_map.mp hmem with ⟨c, hc, hcv⟩
    have hd : durOK c = true := by
      have := hwf2.1
      rw [List.all_eq_true] at this
      exact this c hc
    unfold durOK at hd
    cases hcs : c.timestamp_start <;> rw [hcs] at hd
    · simp at hd
    · cases hce : c.timestamp_end <;> rw [hce] at hd
      · simp at hd
      · have : endVal c = 0 := hcv
        simp only [endVal, hce, Option.getD_some] at this
        subst this
        simp at hd
  have hcd := countDist_dedup (cs.map endVal) 0 hwf2.2 (fun x _ => Nat.zero_le x)
  rw [if_neg hnotmem] at hcd
  rw [← hret']
  show s.total = distinctEnds cs
  rw [htot]
  unfold distinctEnds
  rw [filterMap_tend cs hwf2.1]
  simpa [initState] using hcd

/-- Witness for the amended C3: a well-formed two-capture stream with
two distinct end timestamps yields `total_captures` 2. -/
theorem C3_witness :
    wellFormedStream wfStream = true ∧
    process_captures testEnv "tst" false wfStream [] [] = .ok (2, 0, wfState) ∧
    (2 : Nat) = distinctEnds wfStream := by
  have h : process_captures testEnv "tst" false wfStream [] [] = .ok (2, 0, wfState) := rfl
  refine ⟨by decide, h, ?_⟩
  exact C3_total_counts_distinct testEnv "tst" false wfStream [] [] (2, 0, wfState)
    (by decide) h

/-! ### C1: stitching and stream facts -/

/-- The stitch scan returns exactly the suffix starting at the first
qualifying capture. -/
theorem stitchFrom_eq_dropWhile (t : Nat) :
    ∀ rs : List Capture,
      stitchFrom t rs =
        (if (rs.dropWhile fun c => !(stitchQual t c)).isEmpty then none
         else some (rs.dropWhile fun c => !(stitchQual t c))) := by
  intro rs
  induction rs with
  | nil => rfl
  | cons c rest ih =>
    simp only [stitchFrom, List.dropWhile_cons]
    cases hq : stitchQual t c with
    | true => simp
    | false => simpa using ih

theorem dropWhile_prefix_true (p : Capture → Bool) :
    ∀ (X Y : List Capture), (∀ c ∈ X, p c = true) → (X ++ Y).dropWhile p = Y.dropWhile p := by
  intro X
  induction X with
  | nil => intro Y _; rfl
  | cons c rest ih =>
    intro Y h
    simp only [List.cons_append, List.dropWhile_cons, h c (List.mem_cons_self _ _)]
    exact ih Y fun c' hc' => h c' (List.mem_cons_of_mem _ hc')

theorem streamOk_valid (S : List Capture) (h : streamOk S = true) :
    ∀ c ∈ S, (∃ st, c.timestamp_start = some st) ∧ (∃ e, c.timestamp_end = some e) ∧
      startVal c < endVal c := by
  intro c hc
  have h1 : S.all (fun c =>
      c.timestamp_start.isSome && c.timestamp_end.isSome &&
        decide (startVal c < endVal c)) = true := by
    have hs := h
    unfold streamOk at hs
    rw [Bool.and_eq_true] at hs
    exact hs.1
  rw [List.all_eq_true] at h1
  have h2 := h1 c hc
  simp only [Bool.and_eq_true, decide_eq_true_eq, Option.isSome_iff_exists] at h2
  exact ⟨h2.1.1, h2.1.2, h2.2⟩

theorem streamOk_chainOk (S : List Capture) (h : streamOk S = true) : chainOk S = true := by
  unfold streamOk at h
  rw [Bool.and_eq_true] at h
  exact h.2

theorem streamOk_tail (c : Capture) (rest : List Capture)
    (h : streamOk (c :: rest) = true) : streamOk rest = true := by
  unfold streamOk at h ⊢
  rw [Bool.and_eq_true] at h
  rcases h with ⟨hall, hch⟩
  rw [Bool.and_eq_true]
  refine ⟨?_, ?_⟩
  · rw [List.all_cons, Bool.and_eq_true] at hall
    exact hall.2
  · cases rest with
    | nil => rfl
    | cons c2 t =>
      unfold chainOk at hch
      rw [Bool.and_eq_true] at hch
      exact hch.2

/-- Adjacent captures do not overlap: each end is at or before the next
start. -/
theorem chainOk_chain' : ∀ S : List Capture, chainOk S = true →
    S.Chain' fun c1 c2 => endVal c1 ≤ startVal c2 := by
  intro S
  induction S with
  | nil => intro _; simp
  | cons c rest ih =>
    intro h
    cases rest with
    | nil => simp
    | cons c2 t =>
      unfold chainOk at h
      rw [Bool.and_eq_true] at h
      rcases h with ⟨hle, hch⟩
      rw [List.chain'_cons]
      exact ⟨by simpa using hle, ih hch⟩

/-- End timestamps are strictly increasing along a well-formed
stream. -/
theorem streamOk_ends_chain' : ∀ S : List Capture, streamOk S = true →
    S.Chain' fun c1 c2 => endVal c1 < endVal c2 := by
  intro S
  induction S with
  | nil => intro _; simp
  | cons c rest ih =>
    intro h
    cases rest with
    | nil => simp
    | cons c2 t =>
      have hch := streamOk_chainOk _ h
      unfold chainOk at hch
      rw [Bool.and_eq_true] at hch
      rcases hch with ⟨hle, -⟩
      have hv2 := (streamOk_valid _ h c2 (by simp)).2.2
      rw [List.chain'_cons]
      refine ⟨?_, ih (streamOk_tail c _ h)⟩
      have : endVal c ≤ startVal c2 := by simpa using hle
      omega

theorem streamOk_ends_pairwise (S : List Capture) (h : streamOk S = true) :
    S.Pairwise fun c1 c2 => endVal c1 < endVal c2 := by
  haveI : IsTrans Capture (fun c1 c2 => endVal c1 < endVal c2) :=
    ⟨fun _ _ _ h1 h2 => lt_trans h1 h2⟩
  exact List.chain'_iff_pairwise.mp (streamOk_ends_chain' S h)

theorem memGetLast : ∀ (l : List Capture) (a : Capture), l.getLast? = some a → a ∈ l := by
  intro l
  induction l with
  | nil => intro a h; simp at h
  | cons c rest ih =>
    intro a h
    cases rest with
    | nil =>
      simp only [List.getLast?_singleton] at h
      injection h with h'
      subst h'
      exact List.mem_singleton_self _
    | cons c2 t =>
      rw [List.getLast?_cons_cons] at h
      exact List.mem_cons_of_mem _ (ih a h)

/-- The continuation-loop invariant: when the accumulated data is the
prefix `A' ++ [a]` of the uncapped stream `S` and the trap is keyed by
`a`'s end timestamp, enough fuel drives the loop to completion with
exactly `S` — each round appends the suffix of the response from the
first capture starting at or after the key. -/
theorem dlLoop_ok (api : Nat → List Capture) (S : List Capture)
    (hapi : ∀ t, api t = apiModel S t) (hS : streamOk S = true) :
    ∀ (fuel : Nat) (A' : List Capture) (a : Capture) (B : List Capture),
      S = A' ++ a :: B → B.length + 1 ≤ fuel →
      dlLoop api fuel (A' ++ [a]) (endVal a) = .ok S := by
  intro fuel
  induction fuel with
  | zero => intro A' a B hdec hfuel; omega
  | succ fuel ih =>
    intro A' a B hdec hfuel
    have hlt : ∀ c ∈ A', endVal c < endVal a := by
      have hPW := streamOk_ends_pairwise S hS
      rw [hdec, List.pairwise_append] at hPW
      intro c hc
      exact hPW.2.2 c hc a (List.mem_cons_self _ _)
    have hresp : api (endVal a) = a :: B.take 999 := by
      rw [hapi]
      unfold apiModel
      rw [hdec]
      rw [dropWhile_prefix_true _ A' (a :: B) fun c hc => by
        simp only [decide_eq_true_eq]
        exact hlt c hc]
      rw [List.dropWhile_cons]
      rw [if_neg (by simp)]
      rw [show (1000 : Nat) = 999 + 1 from rfl, List.take_succ_cons]
    have hqa : stitchQual (endVal a) a = false := by
      rcases streamOk_valid S hS a (by rw [hdec]; simp) with ⟨⟨st, hst⟩, ⟨e, he⟩, hlt'⟩
      unfold stitchQual
      rw [hst, he]
      have hsv : startVal a = st := by simp [startVal, hst]
      simp only [decide_eq_false_iff_not]
      omega
    simp only [dlLoop]
    rw [hresp]
    rw [if_neg (by simp only [List.length_cons, List.length_take]; omega)]
    cases B with
    | nil =>
      simp only [List.take_nil]
      have hstitch : stitchFrom (endVal a) [a] = none := by
        simp [stitchFrom, hqa]
      rw [hstitch]
      dsimp only
      rw [if_pos (by simp)]
      rw [hdec]
    | cons b0 B1 =>
      have hqb : stitchQual (endVal a) b0 = true := by
        rcases streamOk_valid S hS b0 (by rw [hdec]; simp) with ⟨⟨st0, hst0⟩, ⟨e0, he0⟩, -⟩
        have hch := chainOk_chain' S (streamOk_chainOk S hS)
        rw [hdec, List.chain'_append_cons_cons] at hch
        have hab : endVal a ≤ startVal b0 := hch.2.1
        unfold stitchQual
        rw [hst0, he0]
        have hsv : startVal b0 = st0 := by simp [startVal, hst0]
        simp only [decide_eq_true_eq]
        omega
      have htk : (b0 :: B1).take 999 = b0 :: B1.take 998 := rfl
      have hstitch : stitchFrom (endVal a) (a :: (b0 :: B1).take 999) =
          some ((b0 :: B1).take 999) := by
        rw [htk]
        simp [stitchFrom, hqa, hqb]
      rw [hstitch]
      by_cases hBlen : (b0 :: B1).length ≤ 998
      · have htake_all : (b0 :: B1).take 999 = b0 :: B1 :=
          List.take_of_length_le (by omega)
        rw [htake_all]
        dsimp only
        cases hlast : (b0 :: B1).getLast? with
        | none => simp at hlast
        | some lc =>
          dsimp only
          have hlcS : lc ∈ S := by
            rw [hdec]
            exact List.mem_append_right _ (List.mem_cons_of_mem _ (memGetLast _ _ hlast))
          rcases streamOk_valid S hS lc hlcS with ⟨-, ⟨e2, he2⟩, -⟩
          rw [he2]
          dsimp only
          rw [if_pos (by
            simp only [List.length_cons] at hBlen ⊢
            omega)]
          rw [hdec]
          simp
      · push_neg at hBlen
        obtain ⟨a2, D, hCD⟩ : ∃ a2 D, (b0 :: B1).drop 998 = a2 :: D := by
          cases hd : (b0 :: B1).drop 998 with
          | nil =>
            exfalso
            have := congrArg List.length hd
            simp only [List.length_drop, List.length_nil] at this
            omega
          | cons x xs => exact ⟨x, xs, rfl⟩
        have hBsplit : b0 :: B1 = (b0 :: B1).take 998 ++ a2 :: D := by
          conv_lhs => rw [← List.take_append_drop 998 (b0 :: B1)]
          rw [hCD]
        have htk999 : (b0 :: B1).take 999 = (b0 :: B1).take 998 ++ [a2] := by
          rw [show (999 : Nat) = 998 + 1 from rfl, List.take_add, hCD]
          rfl
        rw [htk999]
        dsimp only
        rw [List.getLast?_concat]
        dsimp only
        have ha2S : a2 ∈ S := by
          rw [hdec, hBsplit]
          simp
        rcases streamOk_valid S hS a2 ha2S with ⟨-, ⟨e2, he2⟩, -⟩
        rw [he2]
        dsimp only
        have hlen998 : ((b0 :: B1).take 998).length = 998 :=
          List.length_take_of_le (by omega)
        rw [if_neg (by
          simp only [List.length_cons] at hBlen
          simp only [List.length_cons, List.length_take, List.length_append,
            List.length_singleton]
          omega)]
        have hdec' : S = (A' ++ a :: (b0 :: B1).take 998) ++ a2 :: D := by
          rw [hdec]
          conv_lhs => rw [hBsplit]
          simp only [List.cons_append, List.append_assoc]
        have hlenB : B1.length = 998 + D.length := by
          have h1 := congrArg List.length hBsplit
          simp only [List.length_cons, List.length_append, hlen998] at h1
          omega
        have hfuel' : D.length + 1 ≤ fuel := by
          simp only [List.length_cons] at hfuel
          omega
        have hrec := ih (A' ++ a :: (b0 :: B1).take 998) a2 D hdec' hfuel'
        have hacc : (A' ++ [a]) ++ ((b0 :: B1).take 998 ++ [a2]) =
            (A' ++ a :: (b0 :: B1).take 998) ++ [a2] := by
          simp
        rw [hacc]
        have he2v : e2 = endVal a2 := by simp [endVal, he2]
        rw [he2v]
        exact hrec

theorem dropWhile_eq_self_of_head (p : Capture → Bool) (l : List Capture)
    (h : ∀ c ∈ l, p c = false) : l.dropWhile p = l := by
  cases l with
  | nil => rfl
  | cons c rest =>
    rw [List.dropWhile_cons, if_neg (by simp [h c (List.mem_cons_self _ _)])]

theorem synthList_length : ∀ n i, (synthList n i).length = n := by
  intro n
  induction n with
  | zero => intro i; rfl
  | succ n ih => intro i; rw [synthList, List.length_cons, ih]

theorem synthList_all : ∀ n i, (synthList n i).all (fun c =>
    c.timestamp_start.isSome && c.timestamp_end.isSome &&
      decide (startVal c < endVal c)) = true := by
  intro n
  induction n with
  | zero => intro i; rfl
  | succ n ih =>
    intro i
    rw [synthList, List.all_cons, Bool.and_eq_true]
    refine ⟨?_, ih (i + 1)⟩
    simp only [synthCap, startVal, endVal, Option.getD_some, Option.isSome_some,
      Bool.and_eq_true, decide_eq_true_eq]
    exact ⟨⟨trivial, trivial⟩, by omega⟩

theorem synthList_chain : ∀ n i, chainOk (synthList n i) = true := by
  intro n
  induction n with
  | zero => intro i; rfl
  | succ n ih =>
    intro i
    cases n with
    | zero => rfl
    | succ m =>
      show chainOk (synthCap i :: synthCap (i + 1) :: synthList m (i + 2)) = true
      unfold chainOk
      rw [Bool.and_eq_true]
      refine ⟨?_, ih (i + 1)⟩
      simp only [synthCap, startVal, endVal, Option.getD_some, decide_eq_true_eq]
      omega

/-- The synthetic 2398-capture stream is well formed. -/
theorem streamOk_synth : streamOk synthS = true := by
  show streamOk (synthList 2398 0) = true
  unfold streamOk
  rw [Bool.and_eq_true]
  exact ⟨synthList_all 2398 0, synthList_chain 2398 0⟩

/-- An initial request at time `0` against the synthetic stream returns
exactly the 1000-reading cap. -/
theorem apiModel_synth_len : (apiModel synthS 0).length = 1000 := by
  unfold apiModel
  rw [dropWhile_eq_self_of_head _ synthS fun c _ => by simp]
  show (List.take 1000 (synthList 2398 0)).length = 1000
  rw [List.length_take, synthList_length]
  omega

/-- Claim C1: for an entity whose initial fetch returns exactly the
1000-reading cap, the continuation loop appends, from each continuation
response, exactly the suffix starting at the first capture whose start
timestamp is at or after the last recorded end timestamp (the
`stitchFrom` scan is the drop of the longest non-qualifying prefix), and
the final accumulated sequence equals the hypothetical uncapped sequence
`S` itself — same length, no duplicated and no missing reading at any
stitch boundary. -/
theorem C1_download_refinement (api : Nat → List Capture) (S : List Capture)
    (startTime fuel : Nat)
    (hapi : ∀ t, api t = apiModel S t)
    (hS : streamOk S = true)
    (hinit : (api startTime).length = 1000)
    (hstart : ∀ c ∈ S, startTime ≤ endVal c)
    (hfuel : S.length ≤ fuel) :
    downloadSingle api startTime fuel = .ok S ∧
    (∀ lastEnd rs, stitchFrom lastEnd rs =
      if (rs.dropWhile fun c => !(stitchQual lastEnd c)).isEmpty then none
      else some (rs.dropWhile fun c => !(stitchQual lastEnd c))) := by
  constructor
  · have hdw : (S.dropWhile fun c => decide (endVal c < startTime)) = S :=
      dropWhile_eq_self_of_head _ S fun c hc => by
        simp only [decide_eq_false_iff_not]
        exact not_lt.mpr (hstart c hc)
    have hresp0 : api startTime = S.take 1000 := by
      rw [hapi]
      unfold apiModel
      rw [hdw]
    have hlenS : 1000 ≤ S.length := by
      have h1 := hinit
      rw [hresp0, List.length_take] at h1
      omega
    obtain ⟨a, B, hd⟩ : ∃ a B, S.drop 999 = a :: B := by
      cases hd : S.drop 999 with
      | nil =>
        exfalso
        have h2 := congrArg List.length hd
        simp only [List.length_drop, List.length_nil] at h2
        omega
      | cons x xs => exact ⟨x, xs, rfl⟩
    have hdecS : S = S.take 999 ++ a :: B := by
      conv_lhs => rw [← List.take_append_drop 999 S]
      rw [hd]
    have htake1000 : S.take 1000 = S.take 999 ++ [a] := by
      rw [show (1000 : Nat) = 999 + 1 from rfl, List.take_add, hd]
      rfl
    have haS : a ∈ S := by
      rw [hdecS]
      simp
    rcases streamOk_valid S hS a haS with ⟨-, ⟨e, he⟩, -⟩
    have hBfuel : B.length + 1 ≤ fuel := by
      have h1 := congrArg List.length hdecS
      simp only [List.length_append, List.length_take, List.length_cons] at h1
      omega
    have hev : e = endVal a := by simp [endVal, he]
    simp only [downloadSingle]
    rw [hresp0]
    rw [if_pos (by rw [List.length_take]; omega)]
    rw [htake1000, List.getLast?_concat]
    dsimp only
    rw [he]
    dsimp only
    rw [hev]
    exact dlLoop_ok api S hapi hS fuel (S.take 999) a B hdecS hBfuel
  · exact fun lastEnd rs => stitchFrom_eq_dropWhile lastEnd rs

theorem C1_witness :
    downloadSingle (fun t => apiModel synthS t) 0 2398 = .ok synthS :=
  (C1_download_refinement (fun t => apiModel synthS t) synthS 0 2398
    (fun _ => rfl)
    streamOk_synth
    apiModel_synth_len
    (fun c _ => Nat.zero_le _)
    (by show (synthList 2398 0).length ≤ 2398; rw [synthList_length])).1


end BG
